import Mathlib

/-!
# Verification of go-astiencoder core subsystems

A shallow embedding, in Lean 4, of the core subsystems of the
go-astiencoder media pipeline framework: the demuxer (packet durationer,
looper with restamping, per-stream rate emulator, read-frame error
handling, stream table), the rate enforcer (slot window, buffer
distribution, tick dispatch and fill accounting) and the event logger
with message merging.  Machine integers (int64 PTS/DTS, time.Duration
nanoseconds) are modelled as `Int`; overflow is out of scope.  Wall-clock
instants are `Int` nanoseconds, with Go's zero `time.Time` modelled as
`Option.none`.  Concurrency is serialised: each component's serial inbox
(astikit.Chan) processes intake tasks one at a time, so the state
transition of one intake or one tick is modelled as a pure function.
-/

namespace Astilibav

/-- `astiav.Rational`: a rational number with integer numerator and
denominator, as used for stream time bases. -/
structure AVRational where
  num : Int
  den : Int
deriving DecidableEq, Repr

/-- `nanosecondRational = astiav.NewRational(1, 1e9)` from the demuxer
source. -/
def nanosecondRational : AVRational := ⟨1, 1000000000⟩

/-- `av_rescale_rnd(a*?, b, c)` with rounding `AV_ROUND_NEAR_INF` (round to
nearest, halfway away from zero): computes `a * b / c`.  The sign split
keeps both division operands non-negative, where every integer-division
convention agrees with C's. -/
def avRescaleRnd (a b c : Int) : Int :=
  if 0 ≤ a * b then (a * b + c / 2) / c
  else -((-(a * b) + c / 2) / c)

/-- `astiav.RescaleQ(a, bq, cq)`: `av_rescale_q`, i.e.
`a * bq.num/bq.den / (cq.num/cq.den)` rounded to nearest. -/
def rescaleQ (a : Int) (bq cq : AVRational) : Int :=
  avRescaleRnd a (bq.num * cq.den) (bq.den * cq.num)

/-- Modelled from the spec: the helper `durationToTimeBase(d, t)` is not
in the provided sources; per §4.4 of the spec it converts a nanosecond
duration `d` back to time-base units, returning the integer tick count
and the sub-tick leftover (`d` minus the tick count converted back to
nanoseconds). -/
def durationToTimeBase (d : Int) (t : AVRational) : Int × Int :=
  let i := rescaleQ d nanosecondRational t
  (i, d - rescaleQ i t nanosecondRational)

/-! ## Packet durationer (spec §4.3)

The `pktDurationer` type is referenced by the demuxer source but its
definition is not among the provided files, so it is modelled from the
spec: per stream, `handlePkt` returns `P.PTS - lastPTS` (or “0 if
`lastPTS` undefined or `P.PTS ≤ lastPTS`”) and updates `lastPTS`;
`flush()` returns the last observed duration and resets state. -/

/-- Modelled from the spec: per-stream packet durationer state (`lastPts`
is `none` while undefined; `lastDuration` is the last duration it
computed, which `flush` reports). -/
structure pktDurationer where
  lastPts : Option Int
  lastDuration : Int
deriving DecidableEq, Repr

/-- Modelled from the spec: initial durationer state. -/
def pktDurationer.init : pktDurationer := ⟨none, 0⟩

/-- Modelled from the spec: `pktDurationer.handlePkt` returns the
inferred previous duration and the updated state. -/
def pktDurationer.handlePkt (pd : pktDurationer) (pts : Int) : Int × pktDurationer :=
  let prev : Int :=
    match pd.lastPts with
    | none => 0
    | some lp => if lp < pts then pts - lp else 0
  (prev, ⟨some pts, prev⟩)

/-- Modelled from the spec: `pktDurationer.flush` returns the last
observed duration and resets the state. -/
def pktDurationer.flush (pd : pktDurationer) : Int × pktDurationer :=
  (pd.lastDuration, pktDurationer.init)

/-! ## Demuxer looper (`demuxerLooper` in the source) -/

/-- A demuxed packet: stream index plus PTS/DTS in stream time-base
units. -/
structure Pkt where
  streamIndex : Nat
  pts : Int
  dts : Int
deriving DecidableEq, Repr

/-- `demuxerLooperStream`: per-stream looper bookkeeping.  `timeBase` and
`pd` stand for the `s *demuxerStream` back-reference (its
`ctx.TimeBase` and its `pd` packet durationer), folded into this record
because the looper is their only mutator on the read loop. -/
structure demuxerLooperStream where
  duration : Int
  durationD : Int
  lastDuration : Int
  restampDelta : Int
  restampRemainder : Int
  timeBase : AVRational
  pd : pktDurationer
deriving DecidableEq, Repr

/-- `newDemuxerLooperStream`: zero-valued bookkeeping for a stream with
the given time base. -/
def newDemuxerLooperStream (tb : AVRational) : demuxerLooperStream :=
  { duration := 0, durationD := 0, lastDuration := 0, restampDelta := 0
    restampRemainder := 0, timeBase := tb, pd := pktDurationer.init }

/-- The looper's stream table, keyed by stream index
(`demuxerLooper.ss`). -/
abbrev LooperStreams := List (Nat × demuxerLooperStream)

/-- The body of `Demuxer.readFrame`'s per-packet processing for one
stream: `s.pd.handlePkt(pkt)` followed by the per-stream part of
`demuxerLooper.handlePkt(pkt, &previousDuration)`.  Returns the updated
stream state and the packet's (possibly restamped) PTS and DTS. -/
def looperPktStep (s : demuxerLooperStream) (pts dts : Int) :
    demuxerLooperStream × Int × Int :=
  let r := s.pd.handlePkt pts
  let prev0 := r.1
  let s1 := { s with pd := r.2 }
  let s2 :=
    if 0 < prev0 then { s1 with duration := s1.duration + prev0 }
    else if 0 < s1.lastDuration then { s1 with lastDuration := 0 }
    else s1
  if 0 < s2.restampDelta then
    let d := pts - dts
    let newDts := dts + s2.restampDelta
    (s2, newDts + d, newDts)
  else (s2, pts, dts)

/-- A packet as emitted downstream of the looper (after restamping). -/
structure Emitted where
  streamIndex : Nat
  pts : Int
  dts : Int
deriving DecidableEq, Repr

/-- `demuxerLooper.handlePkt` combined with the durationer call that
`Demuxer.readFrame` performs just before it: look the stream up by the
packet's stream index (skipping the packet when the stream is unknown),
run `looperPktStep` on it and emit the restamped packet. -/
def demuxerLooper.handlePkt (ss : LooperStreams) (p : Pkt) :
    LooperStreams × List Emitted :=
  match ss.lookup p.streamIndex with
  | none => (ss, [])
  | some s =>
    let st := looperPktStep s p.pts p.dts
    (ss.map fun e =>
      if e.1 = p.streamIndex then (e.1, (looperPktStep e.2 p.pts p.dts).1) else e,
     [⟨p.streamIndex, st.2.1, st.2.2⟩])

/-- Phase 1 of `demuxerLooper.looping()` for one stream: flush the
durationer into `lastDuration`, add it to `duration` and recompute the
nanosecond equivalent `durationD`. -/
def loopingFlush (s : demuxerLooperStream) : demuxerLooperStream :=
  let f := s.pd.flush
  let dur := s.duration + f.1
  { s with pd := f.2, lastDuration := f.1, duration := dur,
           durationD := rescaleQ dur s.timeBase nanosecondRational }

/-- Phase 2 of `demuxerLooper.looping()` for one stream: compute the
cross-stream alignment delta and fold it, together with the loop's
elapsed `duration`, into `restampDelta`; reset `duration`. -/
def loopingAlign (maxDuration : Int) (s : demuxerLooperStream) : demuxerLooperStream :=
  let d := maxDuration - s.durationD + s.restampRemainder
  if 0 < d then
    let ir := durationToTimeBase d s.timeBase
    if 0 < ir.1 then
      { s with restampDelta := s.restampDelta + (s.duration + ir.1),
               lastDuration := s.lastDuration + ir.1,
               restampRemainder := ir.2, duration := 0 }
    else
      { s with restampDelta := s.restampDelta + s.duration,
               restampRemainder := ir.2, duration := 0 }
  else
    { s with restampDelta := s.restampDelta + s.duration, duration := 0 }

/-- `demuxerLooper.looping()`: flush every stream, take the maximum
nanosecond duration across streams (starting from Go's zero value), then
align every stream against it. -/
def demuxerLooper.looping (ss : LooperStreams) : LooperStreams :=
  let ss1 := ss.map fun e => (e.1, loopingFlush e.2)
  let maxD := ss1.foldl (fun m e => max m e.2.durationD) 0
  ss1.map fun e => (e.1, loopingAlign maxD e.2)

/-- `demuxerLooper.reset()`: zero `duration`, `lastDuration` and
`restampRemainder` on every stream. -/
def demuxerLooper.reset (ss : LooperStreams) : LooperStreams :=
  ss.map fun e =>
    (e.1, { e.2 with duration := 0, lastDuration := 0, restampRemainder := 0 })

/-- One event observed by the demuxer read loop: a successfully read
packet, or an EOF-with-looping boundary (`d.l.looping()` followed by the
seek back to the start). -/
inductive DemuxEvent where
  | pkt (p : Pkt)
  | loopBoundary
deriving DecidableEq, Repr

/-- One step of the read loop restricted to the durationer/looper
pipeline. -/
def demuxerStep (ss : LooperStreams) : DemuxEvent → LooperStreams × List Emitted
  | .pkt p => demuxerLooper.handlePkt ss p
  | .loopBoundary => (demuxerLooper.looping ss, [])

/-- Run the read loop over a list of events, collecting the emitted
(restamped) packets in order. -/
def runDemuxer : LooperStreams → List DemuxEvent → LooperStreams × List Emitted
  | ss, [] => (ss, [])
  | ss, e :: rest =>
    let st := demuxerStep ss e
    let r := runDemuxer st.1 rest
    (r.1, st.2 ++ r.2)

/-- The total of the positive PTS increments the durationer reports over
a list of packets of one stream, starting from the given `lastPTS`. -/
def posAccum : Option Int → List Int → Int
  | _, [] => 0
  | lp, p :: rest =>
    (match lp with
     | none => 0
     | some l => if l < p then p - l else 0) + posAccum (some p) rest

/-- The durationer state after a list of packets of one stream. -/
def pdRun : pktDurationer → List Int → pktDurationer
  | pd, [] => pd
  | pd, p :: rest => pdRun (pd.handlePkt p).2 rest

/-- One stream's looper state after its packets of one loop iteration. -/
def pktsFold (s : demuxerLooperStream) (fs : List Pkt) : demuxerLooperStream :=
  fs.foldl (fun s p => (looperPktStep s p.pts p.dts).1) s

/-- The event stream of `k` passes over the same file with looping
enabled: the file's packets followed by a loop boundary, `k` times. -/
def loopedEvents (file : List Pkt) (k : Nat) : List DemuxEvent :=
  (List.replicate k (file.map DemuxEvent.pkt ++ [DemuxEvent.loopBoundary])).flatten

/-! ## Demuxer rate emulator (`demuxerRateEmulator` in the source)

Only the fields the intake path touches are modelled: `lastAt` (Go zero
`time.Time` is `none`) and `bufferDuration`.  The serial queue, the
tracked packet set and the sleep-until-dispatch task are concurrency
plumbing; the intake computes the scheduled release instant and the
backpressure sleep, which is what the model returns. -/

structure demuxerRateEmulator where
  bufferDuration : Int
  lastAt : Option Int
deriving DecidableEq, Repr

/-- `newDemuxerRateEmulator`: the buffer duration defaults to 1s when the
configured value is non-positive. -/
def newDemuxerRateEmulator (bufferDuration : Int) : demuxerRateEmulator :=
  { bufferDuration := if bufferDuration ≤ 0 then 1000000000 else bufferDuration
    lastAt := none }

/-- Result of one `demuxerRateEmulator.handlePkt` call: the state after
the call, the wall-clock instant at which the packet copy was scheduled
for dispatch (`none` when the intake was skipped), the time the calling
demuxer goroutine is made to sleep for backpressure, and whether an
error event was emitted. -/
structure EmulatorIntake where
  state : demuxerRateEmulator
  scheduledAt : Option Int
  blockedFor : Int
  errorEmitted : Bool
deriving DecidableEq, Repr

/-- `demuxerRateEmulator.handlePkt(ctx, in, previousDuration)` at wall
clock `now`, with `refOk` the outcome of the packet `Ref` copy. -/
def demuxerRateEmulator.handlePkt (e : demuxerRateEmulator) (now : Int)
    (refOk : Bool) (previousDuration : Int) (tb : AVRational) : EmulatorIntake :=
  if !refOk then ⟨e, none, 0, true⟩
  else
    let pktAt0 := e.lastAt.getD now
    let pktAt :=
      if 0 < previousDuration then
        pktAt0 + rescaleQ previousDuration tb nanosecondRational
      else pktAt0
    let delta := pktAt - now - e.bufferDuration
    ⟨{ e with lastAt := some pktAt }, some pktAt,
      if 0 < delta then delta else 0, false⟩

/-! ## Demuxer read-frame error handling (`Demuxer.readFrame`) -/

/-- What one pass through the error branch of `Demuxer.readFrame` did. -/
structure ReadFrameErrorOutcome where
  stop : Bool
  loopingCalled : Bool
  seekAttempted : Bool
  eofSignaled : Bool
  handlerConsulted : Bool
  errorEmitted : Bool
deriving DecidableEq, Repr

/-- The error branch of `Demuxer.readFrame`: `loop` is the atomic loop
flag, `isEof` whether the error `errors.Is` EOF, `seekOk` whether the
seek back to the start succeeds, and `handler` the `(stop, handled)`
pair the custom read-frame error handler would return (`none` when no
handler is configured). -/
def Demuxer.readFrameOnError (loop emulateRate isEof seekOk : Bool)
    (handler : Option (Bool × Bool)) : ReadFrameErrorOutcome :=
  if loop && isEof then
    if seekOk then
      { stop := false, loopingCalled := true, seekAttempted := true,
        eofSignaled := false, handlerConsulted := false, errorEmitted := false }
    else
      { stop := true, loopingCalled := true, seekAttempted := true,
        eofSignaled := false, handlerConsulted := false, errorEmitted := true }
  else
    let eof := emulateRate && isEof
    match handler with
    | some (s, true) =>
      { stop := s, loopingCalled := false, seekAttempted := false,
        eofSignaled := eof, handlerConsulted := true, errorEmitted := false }
    | some (_, false) =>
      { stop := true, loopingCalled := false, seekAttempted := false,
        eofSignaled := eof, handlerConsulted := true, errorEmitted := !isEof }
    | none =>
      { stop := true, loopingCalled := false, seekAttempted := false,
        eofSignaled := eof, handlerConsulted := false, errorEmitted := !isEof }

/-! ## Rate enforcer (`RateEnforcer` in the source)

Nodes (`astiencoder.Node` interface values) are modelled as `Option Nat`
(`none` is Go's nil interface).  Frames are reduced to their PTS (the
only field the rate enforcer reads); the frame pool is modelled by
recording, in `pooled`, the PTS of every frame the component returns to
the pool.  The slot width `int64(1/(outputCtx.TimeBase.ToDouble() *
outputCtx.FrameRate.ToDouble()))` is a per-enforcer constant, kept as
the configuration field `slotWidth`.  The default filler
(`previousRateEnforcerFiller`) is modelled; its stored frame is
`fillerFrame` (the stored frame's PTS) and `fillerNode`. -/

structure rateEnforcerItem where
  pts : Int
  n : Option Nat
deriving DecidableEq, Repr

structure rateEnforcerSlot where
  i : Option rateEnforcerItem
  n : Option Nat
  ptsMax : Int
  ptsMin : Int
deriving DecidableEq, Repr

/-- `rateEnforcerSlot.next()`: the adjacent slot one period later, with
the same node and no item. -/
def rateEnforcerSlot.next (s : rateEnforcerSlot) : rateEnforcerSlot :=
  { i := none, n := s.n, ptsMin := s.ptsMax, ptsMax := s.ptsMax - s.ptsMin + s.ptsMax }

structure RateEnforcerConfig where
  adaptSlotsToIncomingFrames : Bool
  slotsCount : Nat
  slotWidth : Int
  outputTimeBase : AVRational
deriving DecidableEq, Repr

inductive REEvent where
  | switchedIn (n : Option Nat)
  | switchedOut (n : Option Nat)
  | error
deriving DecidableEq, Repr

structure RateEnforcerState where
  slots : List (Option rateEnforcerSlot)
  buf : List rateEnforcerItem
  n : Option Nat
  fillerFrame : Option Int
  fillerNode : Option Nat
  previousNode : Option Nat
  statIncoming : Nat
  statProcessed : Nat
  statFilled : Nat
  pooled : List Int
  events : List REEvent
deriving DecidableEq, Repr

/-- `NewRateEnforcer`: starts with a single nil slot and no desired
node. -/
def RateEnforcer.initState : RateEnforcerState :=
  { slots := [none], buf := [], n := none, fillerFrame := none, fillerNode := none
    previousNode := none, statIncoming := 0, statProcessed := 0, statFilled := 0
    pooled := [], events := [] }

/-- `RateEnforcer.newRateEnforcerSlot(f)`: a new empty slot anchored at
the frame's PTS, owned by the current desired node. -/
def RateEnforcer.newSlot (cfg : RateEnforcerConfig) (n : Option Nat) (fpts : Int) :
    rateEnforcerSlot :=
  { i := none, n := n, ptsMin := fpts, ptsMax := fpts + cfg.slotWidth }

/-- `RateEnforcer.HandleFrame(p)` together with the serial task it
enqueues (the chan runs tasks in order, so intake is one state
transition).  `ref1Ok` is the outcome of the first frame `Ref` (copying
the payload frame), `ref2Ok` of the second (copying into the buffered
item); `framePts` is the payload frame's PTS in the payload descriptor's
time base `descTimeBase`. -/
def RateEnforcer.handleFrame (cfg : RateEnforcerConfig) (st : RateEnforcerState)
    (ref1Ok ref2Ok : Bool) (node : Option Nat) (framePts : Int)
    (descTimeBase : AVRational) : RateEnforcerState :=
  let st0 := { st with statIncoming := st.statIncoming + 1 }
  if !ref1Ok then { st0 with events := st0.events ++ [REEvent.error] }
  else
    let fpts := rescaleQ framePts descTimeBase cfg.outputTimeBase
    let st1 := { st0 with statProcessed := st0.statProcessed + 1 }
    let l : Option rateEnforcerSlot := (st1.slots.getLast?).join
    let c1 : Bool :=
      match l with
      | none => true
      | some sl => decide (st1.n ≠ sl.n) && decide (st1.n = node)
    let c2 : Bool :=
      match l with
      | none => false
      | some sl => decide (sl.n = node) && decide (sl.ptsMax < fpts)
    let st2 :=
      if c1 || (c2 && cfg.adaptSlotsToIncomingFrames) then
        { st1 with slots := st1.slots.set (st1.slots.length - 1)
                     (some (RateEnforcer.newSlot cfg st1.n fpts)) }
      else st1
    let st3 :=
      if c1 then { st2 with events := st2.events ++ [REEvent.switchedIn node] }
      else st2
    if !ref2Ok then { st3 with events := st3.events ++ [REEvent.error] }
    else { st3 with buf := st3.buf ++ [⟨fpts, node⟩] }

/-- The set of nodes currently referenced by a slot, as computed at the
top of `RateEnforcer.distribute()` (nil slots and nil nodes are not
collected). -/
def usefulNodes (slots : List (Option rateEnforcerSlot)) : List Nat :=
  slots.foldl
    (fun acc os =>
      match os with
      | some s =>
        match s.n with
        | some x => if x ∈ acc then acc else acc ++ [x]
        | none => acc
      | none => acc) []

/-- Membership test into `usefulNodes` (`_, ok := ns[...]`; a nil node is
never in the map). -/
def isUsefulNode (slots : List (Option rateEnforcerSlot)) : Option Nat → Bool :=
  fun n? =>
    match n? with
    | some x => decide (x ∈ usefulNodes slots)
    | none => false

/-- The inner buffer scan of `RateEnforcer.distribute()` for one slot
(node `sn`, range `[mn, mx)`, current item `si`).  Go removes matched
buffer entries in place with `idx--`; this is the same scan as a
recursion that splits the buffer into the entries that stay (`.2.1`) and
the entries returned to the pool (`.2.2`), with `.1` the slot's item
after the scan. -/
def distributeSlot (useful : Option Nat → Bool) (sn : Option Nat) (mn mx : Int) :
    Option rateEnforcerItem → List rateEnforcerItem →
    Option rateEnforcerItem × List rateEnforcerItem × List rateEnforcerItem
  | si, [] => (si, [], [])
  | si, it :: rest =>
    if it.n ≠ sn then
      if useful it.n then
        let r := distributeSlot useful sn mn mx si rest
        (r.1, it :: r.2.1, r.2.2)
      else
        let r := distributeSlot useful sn mn mx si rest
        (r.1, r.2.1, it :: r.2.2)
    else if mn ≤ it.pts ∧ it.pts < mx then
      match si with
      | none => distributeSlot useful sn mn mx (some it) rest
      | some a =>
        let r := distributeSlot useful sn mn mx (some a) rest
        (r.1, r.2.1, it :: r.2.2)
    else if it.pts < mn then
      let r := distributeSlot useful sn mn mx si rest
      (r.1, r.2.1, it :: r.2.2)
    else
      let r := distributeSlot useful sn mn mx si rest
      (r.1, it :: r.2.1, r.2.2)

/-- The outer slot loop of `RateEnforcer.distribute()`: each non-nil,
still-empty slot scans the buffer left by the previous slots; pooled
frames accumulate across slots. -/
def distributeSlots (useful : Option Nat → Bool) :
    List (Option rateEnforcerSlot) → List rateEnforcerItem →
    List (Option rateEnforcerSlot) × List rateEnforcerItem × List rateEnforcerItem
  | [], buf => ([], buf, [])
  | os :: rest, buf =>
    match os with
    | none =>
      let r := distributeSlots useful rest buf
      (none :: r.1, r.2.1, r.2.2)
    | some s =>
      if s.i.isSome then
        let r := distributeSlots useful rest buf
        (some s :: r.1, r.2.1, r.2.2)
      else
        let d := distributeSlot useful s.n s.ptsMin s.ptsMax none buf
        let r := distributeSlots useful rest d.2.1
        (some { s with i := d.1 } :: r.1, r.2.1, d.2.2 ++ r.2.2)

/-- `RateEnforcer.distribute()`: compute the useful nodes from the
current slots, then run the slot loop. -/
def RateEnforcer.distribute (slots : List (Option rateEnforcerSlot))
    (buf : List rateEnforcerItem) :
    List (Option rateEnforcerSlot) × List rateEnforcerItem × List rateEnforcerItem :=
  distributeSlots (isUsefulNode slots) slots buf

/-- `previousRateEnforcerFiller.Fill()` wrapped in `current()`'s fill
branch: returns the stored frame as an item (or no item when nothing is
stored yet), with `filled = true` either way. -/
def previousFill (fillerFrame : Option Int) (fillerNode : Option Nat) :
    Option rateEnforcerItem × Bool × Option Int × Option Nat :=
  (fillerFrame.map fun f => ⟨f, fillerNode⟩, true, fillerFrame, fillerNode)

/-- `RateEnforcer.current()`: take slot 0's item when present (informing
the previous filler via `NoFill`, which stores the item's node and a ref
of its frame, dropping the stored frame when that ref fails); otherwise
ask the filler.  Returns (item, filled, stored filler frame, stored
filler node). -/
def RateEnforcer.current (slots : List (Option rateEnforcerSlot))
    (fillerFrame : Option Int) (fillerNode : Option Nat) (noFillRefOk : Bool) :
    Option rateEnforcerItem × Bool × Option Int × Option Nat :=
  match slots.head? with
  | some (some s) =>
    match s.i with
    | some it => (some it, false, if noFillRefOk then some it.pts else none, it.n)
    | none => previousFill fillerFrame fillerNode
  | _ => previousFill fillerFrame fillerNode

structure TickOut where
  warm : Bool
  filled : Bool
  dispatched : Option rateEnforcerItem
deriving DecidableEq, Repr

/-- The deferred “add next slot” step of `RateEnforcer.tickFunc`: append
`tail.next()`, or nil when the tail slot is nil. -/
def appendNextSlot (slots : List (Option rateEnforcerSlot)) :
    List (Option rateEnforcerSlot) :=
  slots ++ [((slots.getLast?).join).map rateEnforcerSlot.next]

/-- One `RateEnforcer.tickFunc` pass (after the sleep and context check).
Deferred actions run last-registered-first, so the next slot is appended
before the first slot is removed, and the first slot is not removed in
the warmup branch (`len(slots) < slotsCount`).  `noFillRefOk` is the
outcome of the frame ref inside the previous filler's `NoFill`. -/
def RateEnforcer.tickFunc (cfg : RateEnforcerConfig) (st : RateEnforcerState)
    (noFillRefOk : Bool) : RateEnforcerState × TickOut :=
  if st.slots.length < cfg.slotsCount then
    ({ st with slots := appendNextSlot st.slots }, ⟨false, false, none⟩)
  else
    let d := RateEnforcer.distribute st.slots st.buf
    let slots1 := d.1
    let c := RateEnforcer.current slots1 st.fillerFrame st.fillerNode noFillRefOk
    let item := c.1
    let filled := c.2.1
    let ev2 : List REEvent :=
      match item with
      | some it =>
        if it.n ≠ none ∧ st.previousNode ≠ it.n then [REEvent.switchedOut it.n] else []
      | none => []
    let prevNode' :=
      match item with
      | some it =>
        if it.n ≠ none ∧ st.previousNode ≠ it.n then it.n else st.previousNode
      | none => st.previousNode
    let pooledTail : List Int :=
      if filled then []
      else match item with
        | some it => [it.pts]
        | none => []
    ({ st with slots := (appendNextSlot slots1).tail, buf := d.2.1,
               fillerFrame := c.2.2.1, fillerNode := c.2.2.2,
               events := st.events ++ ev2, previousNode := prevNode',
               statFilled := st.statFilled + (if filled then 1 else 0),
               pooled := st.pooled ++ d.2.2.map rateEnforcerItem.pts ++ pooledTail },
     ⟨true, filled, item⟩)

/-- An operation arriving at the rate enforcer's serial state: a tick, a
frame intake, or a `Switch`. -/
inductive REOp where
  | tick (noFillRefOk : Bool)
  | frame (ref1Ok ref2Ok : Bool) (node : Option Nat) (framePts : Int) (descTimeBase : AVRational)
  | switch (n : Option Nat)
deriving DecidableEq, Repr

/-- `RateEnforcer.Switch(n)`. -/
def RateEnforcer.Switch (st : RateEnforcerState) (n : Option Nat) : RateEnforcerState :=
  { st with n := n }

/-- Run a sequence of operations, collecting each tick's outcome. -/
def RateEnforcer.runOps (cfg : RateEnforcerConfig) :
    RateEnforcerState → List REOp → RateEnforcerState × List TickOut
  | st, [] => (st, [])
  | st, REOp.tick ok :: rest =>
    let t := RateEnforcer.tickFunc cfg st ok
    let r := RateEnforcer.runOps cfg t.1 rest
    (r.1, t.2 :: r.2)
  | st, REOp.frame r1 r2 n p tb :: rest =>
    RateEnforcer.runOps cfg (RateEnforcer.handleFrame cfg st r1 r2 n p tb) rest
  | st, REOp.switch n :: rest =>
    RateEnforcer.runOps cfg (RateEnforcer.Switch st n) rest

/-! ## Demuxer stream table (`Demuxer.Streams`) -/

/-- `Demuxer.Streams()`: collect the map's keys in whatever order the
map iterates them (`ss` is one such enumeration of the key/value pairs),
sort the indexes ascending, and return one stream per index.  The
returned `Stream` carries its `Index`, modelled by keeping the key in
the output pair. -/
def Demuxer.Streams {α : Type} (ss : List (Int × α)) : List (Int × α) :=
  let idxs := (ss.map Prod.fst).insertionSort (· ≤ ·)
  idxs.filterMap fun i => (ss.lookup i).map fun v => (i, v)

/-! ## Predicates used to state the claims about the rate enforcer -/

/-- The claim's in-range predicate for a slot scanning the buffer: a
frame of the slot's node with `ptsMin ≤ pts < ptsMax`. -/
def inSlotRange (sn : Option Nat) (mn mx : Int) (it : rateEnforcerItem) : Bool :=
  decide (it.n = sn) && decide (mn ≤ it.pts) && decide (it.pts < mx)

/-- The claim's kept-in-buffer predicate: a frame of a different node
that some slot still references, or a frame of the slot's node that is
past the slot (`pts ≥ ptsMax`). -/
def keptInBuffer (useful : Option Nat → Bool) (sn : Option Nat) (mx : Int)
    (it : rateEnforcerItem) : Bool :=
  (decide (it.n ≠ sn) && useful it.n) || (decide (it.n = sn) && decide (mx ≤ it.pts))

/-- The geometry of a slot: its `(ptsMin, ptsMax)` range. -/
def slotGeom : Option rateEnforcerSlot → Option (Int × Int) :=
  Option.map fun s => (s.ptsMin, s.ptsMax)

/-- The geometric effect of `rateEnforcerSlot.next`: the adjacent range
one slot width later. -/
def nextG : Option (Int × Int) → Option (Int × Int) :=
  Option.map fun g => (g.2, g.2 - g.1 + g.2)

/-- Contiguity of two adjacent slots: when both are non-nil, the second
starts where the first ends. -/
def contigG (a b : Option (Int × Int)) : Bool :=
  match a, b with
  | some x, some y => decide (y.1 = x.2)
  | _, _ => true

/-- The claim's contiguity invariant over a slot window: every adjacent
pair of non-nil slots satisfies `slot[i+1].ptsMin = slot[i].ptsMax`. -/
def slotsContiguous (slots : List (Option rateEnforcerSlot)) : Prop :=
  List.Chain' (fun a b => contigG a b = true) (slots.map slotGeom)

/-- The geometric effect of one warm tick on the slot window: drop the
head, append the `next()` of the tail. -/
def gstep (gl : List (Option (Int × Int))) : List (Option (Int × Int)) :=
  gl.tail ++ [nextG (gl.getLast?).join]

end Astilibav

namespace Astiencoder

/-! ## Event logger with message merging

The `eventLogger` implementation itself is not among the provided
sources (only its test, `TestEventLogger`, is), so the merger is
modelled from the spec: within one merging window, the first occurrence
of a pattern forwards the concrete message to the sink and later
occurrences only increment a count; when the window expires (tick or
`Close`), every pattern with count ≥ 2 contributes exactly one summary
line.  Pattern identity: `TestEventLogger` requires `Errorf("msg")` and
`Infof("msg")` to be merged separately (the expected sink map counts the
line "msg" twice and the summary "repeated once: msg" twice), so the
identity is the pair (level, expanded message) for the formatted
emitters and (level, fmt string) for the keyed emitters. -/

inductive LogLevel where
  | debug | info | warn | error
deriving DecidableEq, Repr

/-- One emit call: `Debugf/Infof/Warnf/Errorf(fmt, args...)` carries its
fully-expanded message, `Debugk/Infok/Warnk/Errork(fmt, key)` carries
the (unexpanded) fmt string and the key. -/
inductive LogEmit where
  | fmt (lvl : LogLevel) (msg : String)
  | keyed (lvl : LogLevel) (pat key : String)
deriving DecidableEq, Repr

/-- The pattern identity of an emit. -/
def LogEmit.patternKey : LogEmit → LogLevel × String
  | .fmt l m => (l, m)
  | .keyed l p _ => (l, p)

/-- The concrete message forwarded to the sink on a first occurrence:
the expanded message, or for the keyed form the key. -/
def LogEmit.concrete : LogEmit → String
  | .fmt _ m => m
  | .keyed _ _ k => k

/-- One emit against the merger's map (kept as an association list in
first-seen order) and the immediately forwarded sink lines. -/
def mergeStep (acc : List ((LogLevel × String) × Nat) × List String) (e : LogEmit) :
    List ((LogLevel × String) × Nat) × List String :=
  let k := e.patternKey
  if (acc.1.lookup k).isSome then
    (acc.1.map fun kv => if kv.1 = k then (kv.1, kv.2 + 1) else kv, acc.2)
  else
    (acc.1 ++ [(k, 1)], acc.2 ++ [e.concrete])

/-- The summary line flushed for a pattern whose extra count (total
minus the already-forwarded first occurrence) is `extras ≥ 1`. -/
def summaryLine (extras : Nat) (pat : String) : String :=
  if extras = 1 then "astiencoder: pattern repeated once: " ++ pat
  else "astiencoder: pattern repeated " ++ toString extras ++ " times: " ++ pat

/-- Window expiry (tick or `Close`): every entry with count ≥ 2 emits
exactly one summary line. -/
def flushLines (entries : List ((LogLevel × String) × Nat)) : List String :=
  (entries.filter fun kv => 2 ≤ kv.2).map fun kv => summaryLine (kv.2 - 1) kv.1.2

/-- All lines the sink receives for a multiset of emit calls inside one
merging window: the forwarded first occurrences in order, then the
summaries at window expiry. -/
def sinkLines (emits : List LogEmit) : List String :=
  let acc := emits.foldl mergeStep ([], [])
  acc.2 ++ flushLines acc.1

/-- Fold collecting each element at its first occurrence, starting from
an already-collected prefix. -/
def firstOccFold {α : Type} [DecidableEq α] (init : List α) (l : List α) : List α :=
  l.foldl (fun acc x => if x ∈ acc then acc else acc ++ [x]) init

/-- The distinct patterns of a list, each kept at its first occurrence
(the order in which the merger's map acquires its entries). -/
def firstOccurrences {α : Type} [DecidableEq α] (l : List α) : List α :=
  firstOccFold [] l

/-- The claim's pattern identity, following the claim's words: the
expanded message for formatted emitters and the unexpanded fmt string
for keyed emitters, with no reference to the level. -/
def claimPatternKey : LogEmit → String
  | .fmt _ m => m
  | .keyed _ p _ => p

end Astiencoder

/-! # Theorems -/

namespace Astilibav

/-! ## Generic helper lemmas -/

theorem lookup_map_snd {β γ : Type} (g : β → γ) :
    ∀ (ss : List (Nat × β)) (i : Nat),
      (ss.map fun e => (e.1, g e.2)).lookup i = (ss.lookup i).map g
  | [], _ => rfl
  | (k, v) :: rest, i => by
    by_cases h : i = k
    · subst h
      simp [List.lookup_cons]
    · have hbeq : (i == k) = false := by simpa using h
      simp [List.lookup_cons, hbeq, lookup_map_snd g rest i]

theorem if_pos_eq_max (x : Int) : (if 0 < x then x else 0) = max 0 x := by
  rcases lt_or_le 0 x with h | h
  · rw [if_pos h, max_eq_right h.le]
  · rw [if_neg (not_lt.mpr h), max_eq_left h]

theorem if_sub_eq_max (a b : Int) : (if b < a then a - b else 0) = max 0 (a - b) := by
  rcases lt_or_le b a with h | h
  · rw [if_pos h, max_eq_right (by omega)]
  · rw [if_neg (not_lt.mpr h), max_eq_left (by omega)]

theorem rescaleQ_zero (tb : AVRational) (h : 0 < tb.den) :
    rescaleQ 0 tb nanosecondRational = 0 := by
  show avRescaleRnd 0 (tb.num * 1000000000) (tb.den * 1) = 0
  unfold avRescaleRnd
  rw [if_pos (by simp)]
  rw [zero_mul, zero_add, mul_one]
  exact Int.ediv_eq_zero_of_lt (by omega) (by omega)

/-! ## C5: rate emulator scheduling and backpressure -/

/-- C5: for every packet handled by a per-stream demuxer rate emulator
(with the `Ref` copy succeeding), the scheduled release time is
`pktAt = lastAt (or now when lastAt is zero) + rescale(previousDuration,
stream time base, ns)`; `lastAt` is then set to `pktAt`; and the calling
demuxer goroutine is blocked for exactly the excess of `lastAt − now`
over `bufferDuration` (and not at all when there is no excess); the
constructor defaults `bufferDuration` to 1s when the configured value is
non-positive. -/
theorem C5_rate_emulator_intake (e : demuxerRateEmulator) (now previousDuration bd : Int)
    (tb : AVRational) (hprev : 0 ≤ previousDuration) (hden : 0 < tb.den) :
    (demuxerRateEmulator.handlePkt e now true previousDuration tb).scheduledAt =
      some (e.lastAt.getD now + rescaleQ previousDuration tb nanosecondRational) ∧
    (demuxerRateEmulator.handlePkt e now true previousDuration tb).state.lastAt =
      some (e.lastAt.getD now + rescaleQ previousDuration tb nanosecondRational) ∧
    (demuxerRateEmulator.handlePkt e now true previousDuration tb).blockedFor =
      max 0 (e.lastAt.getD now + rescaleQ previousDuration tb nanosecondRational
               - now - e.bufferDuration) ∧
    (newDemuxerRateEmulator bd).bufferDuration =
      (if bd ≤ 0 then 1000000000 else bd) := by
  rcases lt_or_le 0 previousDuration with hp | hp
  · simp [demuxerRateEmulator.handlePkt, newDemuxerRateEmulator, if_pos hp, if_pos_eq_max,
      if_sub_eq_max]
  · have h0 : previousDuration = 0 := le_antisymm hp hprev
    subst h0
    simp [demuxerRateEmulator.handlePkt, newDemuxerRateEmulator, rescaleQ_zero tb hden,
      if_pos_eq_max, if_sub_eq_max]

/-- Witness for C5 at a concrete input. -/
theorem C5_rate_emulator_intake_witness :
    (demuxerRateEmulator.handlePkt ⟨500, some 100⟩ 7 true 3 ⟨1, 1000000000⟩).scheduledAt =
      some ((⟨500, some 100⟩ : demuxerRateEmulator).lastAt.getD 7 +
        rescaleQ 3 ⟨1, 1000000000⟩ nanosecondRational) ∧
    (demuxerRateEmulator.handlePkt ⟨500, some 100⟩ 7 true 3 ⟨1, 1000000000⟩).state.lastAt =
      some ((⟨500, some 100⟩ : demuxerRateEmulator).lastAt.getD 7 +
        rescaleQ 3 ⟨1, 1000000000⟩ nanosecondRational) ∧
    (demuxerRateEmulator.handlePkt ⟨500, some 100⟩ 7 true 3 ⟨1, 1000000000⟩).blockedFor =
      max 0 ((⟨500, some 100⟩ : demuxerRateEmulator).lastAt.getD 7 +
        rescaleQ 3 ⟨1, 1000000000⟩ nanosecondRational - 7 -
        (⟨500, some 100⟩ : demuxerRateEmulator).bufferDuration) ∧
    (newDemuxerRateEmulator 0).bufferDuration = (if (0:Int) ≤ 0 then 1000000000 else 0) :=
  C5_rate_emulator_intake ⟨500, some 100⟩ 7 3 0 ⟨1, 1000000000⟩ (by decide) (by decide)

/-! ## C6: read-frame error handling -/

/-- C6: for every error returned by `ReadFrame`: with the loop flag set
and the error EOF, `looping()` runs and a seek back to the start is
attempted, stopping (with an emitted error) exactly when the seek fails;
otherwise the per-stream emulators' `eof()` runs exactly when emulation
is on and the error is EOF, a configured handler is consulted and, when
it claims the error, its stop result is honored with no default error
event; under default handling an error event is emitted iff the error is
not EOF, and the read loop stops. -/
theorem C6_read_frame_error_semantics (loop emulateRate isEof seekOk : Bool)
    (handler : Option (Bool × Bool)) :
    (Demuxer.readFrameOnError loop emulateRate isEof seekOk handler).loopingCalled =
      (loop && isEof) ∧
    (Demuxer.readFrameOnError loop emulateRate isEof seekOk handler).seekAttempted =
      (loop && isEof) ∧
    (Demuxer.readFrameOnError loop emulateRate isEof seekOk handler).stop =
      (if loop && isEof then !seekOk else
        match handler with
        | some (s, true) => s
        | _ => true) ∧
    (Demuxer.readFrameOnError loop emulateRate isEof seekOk handler).errorEmitted =
      (if loop && isEof then !seekOk else
        match handler with
        | some (_, true) => false
        | _ => !isEof) ∧
    (Demuxer.readFrameOnError loop emulateRate isEof seekOk handler).eofSignaled =
      (!(loop && isEof) && (emulateRate && isEof)) ∧
    (Demuxer.readFrameOnError loop emulateRate isEof seekOk handler).handlerConsulted =
      (!(loop && isEof) && handler.isSome) := by
  rcases handler with _ | ⟨s, h⟩
  · cases loop <;> cases isEof <;> cases emulateRate <;> cases seekOk <;> decide
  · cases loop <;> cases isEof <;> cases emulateRate <;> cases seekOk <;>
      cases s <;> cases h <;> decide

/-! ## C9: looper reset -/

theorem reset_lookup : ∀ (ss : LooperStreams) (i : Nat),
    (demuxerLooper.reset ss).lookup i =
      (ss.lookup i).map
        fun s => { s with duration := 0, lastDuration := 0, restampRemainder := 0 }
  | [], _ => rfl
  | (k, v) :: rest, i => by
    by_cases h : i = k
    · subst h
      simp [demuxerLooper.reset, List.lookup_cons]
    · have hbeq : (i == k) = false := by simpa using h
      simp only [demuxerLooper.reset, List.map_cons, List.lookup_cons, hbeq]
      exact reset_lookup rest i

/-- C9: `demuxerLooper.reset()` sets `duration`, `lastDuration` and
`restampRemainder` to zero for every stream and leaves every other
per-stream field unchanged; in particular `restampDelta` keeps its value
across `reset()`. -/
theorem C9_looper_reset_contract (ss : LooperStreams) (i : Nat) (s : demuxerLooperStream)
    (h : ss.lookup i = some s) :
    ∃ s', (demuxerLooper.reset ss).lookup i = some s' ∧
      s'.duration = 0 ∧ s'.lastDuration = 0 ∧ s'.restampRemainder = 0 ∧
      s'.restampDelta = s.restampDelta ∧ s'.durationD = s.durationD ∧
      s'.timeBase = s.timeBase ∧ s'.pd = s.pd := by
  refine ⟨{ s with duration := 0, lastDuration := 0, restampRemainder := 0 },
    ?_, rfl, rfl, rfl, rfl, rfl, rfl, rfl⟩
  rw [reset_lookup, h]
  rfl

/-- Witness for C9 at a concrete input. -/
theorem C9_looper_reset_contract_witness :
    ∃ s', (demuxerLooper.reset [(0, ⟨7, 9, 3, 42, 5, ⟨1, 10⟩, ⟨some 4, 2⟩⟩)]).lookup 0 = some s' ∧
      s'.duration = 0 ∧ s'.lastDuration = 0 ∧ s'.restampRemainder = 0 ∧
      s'.restampDelta = (⟨7, 9, 3, 42, 5, ⟨1, 10⟩, ⟨some 4, 2⟩⟩ : demuxerLooperStream).restampDelta ∧
      s'.durationD = (⟨7, 9, 3, 42, 5, ⟨1, 10⟩, ⟨some 4, 2⟩⟩ : demuxerLooperStream).durationD ∧
      s'.timeBase = (⟨7, 9, 3, 42, 5, ⟨1, 10⟩, ⟨some 4, 2⟩⟩ : demuxerLooperStream).timeBase ∧
      s'.pd = (⟨7, 9, 3, 42, 5, ⟨1, 10⟩, ⟨some 4, 2⟩⟩ : demuxerLooperStream).pd :=
  C9_looper_reset_contract [(0, ⟨7, 9, 3, 42, 5, ⟨1, 10⟩, ⟨some 4, 2⟩⟩)] 0
    ⟨7, 9, 3, 42, 5, ⟨1, 10⟩, ⟨some 4, 2⟩⟩ (by decide)


/-! ## C2: slot window invariants -/

theorem contigG_next : ∀ x : Option (Int × Int), contigG x (nextG x) = true := by
  intro x
  rcases x with _ | ⟨mn, mx⟩ <;> simp [contigG, nextG]

theorem chain'_of_length_le_one {α : Type} {R : α → α → Prop} :
    ∀ (l : List α), l.length ≤ 1 → List.Chain' R l
  | [], _ => List.chain'_nil
  | [a], _ => List.chain'_singleton a
  | _ :: _ :: _, h => by simp at h

theorem getLast?_tail_eq {α : Type} :
    ∀ (l : List α) (x : α), l.tail.getLast? = some x → l.getLast? = some x
  | [], x, h => by simp at h
  | a :: l', x, h => by
    simp only [List.tail_cons] at h
    cases l' with
    | nil => simp at h
    | cons b t =>
      rw [List.getLast?_cons_cons]
      exact h

theorem getLast?_drop_eq {α : Type} :
    ∀ (n : Nat) (l : List α) (x : α), (l.drop n).getLast? = some x → l.getLast? = some x
  | 0, _, _, h => h
  | n + 1, l, x, h => by
    cases l with
    | nil => simp at h
    | cons a t =>
      simp only [List.drop_succ_cons] at h
      exact getLast?_tail_eq (a :: t) x (getLast?_drop_eq n t x h)

theorem gstep_chain_step (gl : List (Option (Int × Int))) (k : Nat)
    (hc : List.Chain' (fun a b => contigG a b = true) (gl.drop k)) :
    List.Chain' (fun a b => contigG a b = true) ((gstep gl).drop (k - 1)) := by
  have htail : gl.tail = gl.drop 1 := (List.drop_one gl).symm
  by_cases hj : k - 1 ≤ gl.tail.length
  · rw [gstep, List.drop_append_of_le_length hj]
    apply List.chain'_append.mpr
    refine ⟨?_, List.chain'_singleton _, ?_⟩
    · have h1 : gl.tail.drop (k - 1) = (gl.drop k).drop (1 + (k - 1) - k) := by
        rw [htail, List.drop_drop, List.drop_drop]
        congr 1
        omega
      rw [h1]
      exact hc.drop _
    · intro x hx y hy
      simp only [List.head?_cons, Option.mem_def, Option.some.injEq] at hy
      subst hy
      have htt : gl.tail.drop (k - 1) = gl.drop (1 + (k - 1)) := by
        rw [htail, List.drop_drop]
      rw [htt] at hx
      have hlast : gl.getLast? = some x :=
        getLast?_drop_eq _ gl x (Option.mem_def.mp hx)
      rw [hlast]
      exact contigG_next x
  · apply chain'_of_length_le_one
    have hlen : (gstep gl).length = gl.tail.length + 1 := by
      simp [gstep]
    rw [List.length_drop, hlen]
    omega

theorem gstep_iterate_suffix :
    ∀ (m : Nat) (gl : List (Option (Int × Int))),
      List.Chain' (fun a b => contigG a b = true)
        ((gstep^[m] gl).drop (gl.length - 1 - m))
  | 0, gl => by
    apply chain'_of_length_le_one
    rw [Function.iterate_zero_apply, List.length_drop]
    omega
  | m + 1, gl => by
    rw [Function.iterate_succ_apply']
    have ih := gstep_iterate_suffix m gl
    have h := gstep_chain_step (gstep^[m] gl) (gl.length - 1 - m) ih
    have he : gl.length - 1 - m - 1 = gl.length - 1 - (m + 1) := by omega
    rw [he] at h
    exact h

theorem gstep_iterate_chain (m : Nat) (gl : List (Option (Int × Int)))
    (hm : gl.length - 1 ≤ m) :
    List.Chain' (fun a b => contigG a b = true) (gstep^[m] gl) := by
  have h := gstep_iterate_suffix m gl
  rw [Nat.sub_eq_zero_of_le hm, List.drop_zero] at h
  exact h

theorem distributeSlots_geom (useful : Option Nat → Bool) :
    ∀ (slots : List (Option rateEnforcerSlot)) (buf : List rateEnforcerItem),
      ((distributeSlots useful slots buf).1).map slotGeom = slots.map slotGeom
  | [], _ => rfl
  | os :: rest, buf => by
    rcases os with _ | s
    · simp only [distributeSlots, List.map_cons]
      rw [distributeSlots_geom useful rest buf]
    · by_cases hi : s.i.isSome
      · simp only [distributeSlots, hi, if_true, List.map_cons]
        rw [distributeSlots_geom useful rest buf]
      · simp only [distributeSlots, hi, Bool.false_eq_true, if_false, List.map_cons]
        rw [distributeSlots_geom useful rest _]
        rfl

theorem distribute_geom (slots : List (Option rateEnforcerSlot))
    (buf : List rateEnforcerItem) :
    ((RateEnforcer.distribute slots buf).1).map slotGeom = slots.map slotGeom :=
  distributeSlots_geom _ slots buf

theorem appendNextSlot_geom (l : List (Option rateEnforcerSlot)) :
    (appendNextSlot l).map slotGeom =
      (l.map slotGeom) ++ [nextG ((l.map slotGeom).getLast?).join] := by
  unfold appendNextSlot
  rw [List.map_append]
  congr 1
  rw [List.getLast?_map]
  rcases l.getLast? with _ | os
  · simp [slotGeom, nextG]
  · rcases os with _ | s <;> simp [slotGeom, nextG, rateEnforcerSlot.next]

theorem tail_append_singleton {α : Type} (l : List α) (a : α) (h : l ≠ []) :
    (l ++ [a]).tail = l.tail ++ [a] := by
  cases l with
  | nil => exact absurd rfl h
  | cons b t => simp

theorem tick_geom (cfg : RateEnforcerConfig) (st : RateEnforcerState) (ok : Bool)
    (hcnt : 1 ≤ cfg.slotsCount) (hw : ¬(st.slots.length < cfg.slotsCount)) :
    ((RateEnforcer.tickFunc cfg st ok).1.slots).map slotGeom =
      gstep (st.slots.map slotGeom) := by
  have hne : st.slots.map slotGeom ≠ [] := by
    have : 1 ≤ st.slots.length := by omega
    simp only [ne_eq, List.map_eq_nil_iff]
    intro hnil
    rw [hnil] at this
    simp at this
  unfold RateEnforcer.tickFunc
  simp only [hw, if_false]
  rw [List.map_tail, appendNextSlot_geom, distribute_geom, gstep,
    tail_append_singleton _ _ hne]

theorem handleFrame_slots_length (cfg : RateEnforcerConfig) (st : RateEnforcerState)
    (r1 r2 : Bool) (node : Option Nat) (pts : Int) (tb : AVRational) :
    (RateEnforcer.handleFrame cfg st r1 r2 node pts tb).slots.length =
      st.slots.length := by
  unfold RateEnforcer.handleFrame
  cases r1 <;> cases r2 <;>
    simp [apply_ite RateEnforcerState.slots, apply_ite List.length, List.length_set]

theorem tickFunc_slots_length (cfg : RateEnforcerConfig) (st : RateEnforcerState)
    (ok : Bool) (hcnt : 1 ≤ cfg.slotsCount) (hw : ¬(st.slots.length < cfg.slotsCount)) :
    (RateEnforcer.tickFunc cfg st ok).1.slots.length = st.slots.length := by
  have h := congrArg List.length (tick_geom cfg st ok hcnt hw)
  rw [List.length_map] at h
  simp only [gstep, List.length_append, List.length_tail, List.length_map,
    List.length_singleton] at h
  omega

theorem runOps_slots_ne_nil (cfg : RateEnforcerConfig) (hcnt : 1 ≤ cfg.slotsCount) :
    ∀ (ops : List REOp) (st0 : RateEnforcerState), st0.slots ≠ [] →
      (RateEnforcer.runOps cfg st0 ops).1.slots ≠ []
  | [], st0, h => h
  | REOp.tick ok :: rest, st0, h => by
    simp only [RateEnforcer.runOps]
    apply runOps_slots_ne_nil cfg hcnt rest
    by_cases hw : st0.slots.length < cfg.slotsCount
    · unfold RateEnforcer.tickFunc
      simp [hw, appendNextSlot]
    · have hlen := tickFunc_slots_length cfg st0 ok hcnt hw
      have : 0 < (RateEnforcer.tickFunc cfg st0 ok).1.slots.length := by
        rw [hlen]
        omega
      exact List.ne_nil_of_length_pos this
  | REOp.frame r1 r2 n p tb :: rest, st0, h => by
    simp only [RateEnforcer.runOps]
    apply runOps_slots_ne_nil cfg hcnt rest
    have hlen := handleFrame_slots_length cfg st0 r1 r2 n p tb
    have hp : 0 < st0.slots.length := List.length_pos.mpr h
    exact List.ne_nil_of_length_pos (by omega)
  | REOp.switch n :: rest, st0, h => by
    simp only [RateEnforcer.runOps]
    exact runOps_slots_ne_nil cfg hcnt rest _ h

theorem runTicks_geom (cfg : RateEnforcerConfig) (hcnt : 1 ≤ cfg.slotsCount) :
    ∀ (m : Nat) (st : RateEnforcerState), cfg.slotsCount ≤ st.slots.length →
      ((RateEnforcer.runOps cfg st (List.replicate m (REOp.tick true))).1.slots).map slotGeom =
        gstep^[m] (st.slots.map slotGeom) ∧
      (RateEnforcer.runOps cfg st (List.replicate m (REOp.tick true))).1.slots.length =
        st.slots.length
  | 0, st, _ => ⟨rfl, rfl⟩
  | m + 1, st, hlen => by
    have hw : ¬(st.slots.length < cfg.slotsCount) := by omega
    have hstep := tick_geom cfg st true hcnt hw
    have hsteplen := tickFunc_slots_length cfg st true hcnt hw
    have ih := runTicks_geom cfg hcnt m (RateEnforcer.tickFunc cfg st true).1
      (by omega)
    rw [List.replicate_succ]
    simp only [RateEnforcer.runOps]
    refine ⟨?_, by rw [ih.2, hsteplen]⟩
    rw [ih.1, hstep, Function.iterate_succ_apply]

/-- C2: counterexample to the claim as stated.  Re-anchoring the tail
slot on a source switch leaves an interior pair of adjacent non-nil
slots that is not contiguous even immediately after a tick, so the
contiguity invariant does not hold for every adjacent pair of non-nil
slots after every tick. -/
theorem C2_counterexample :
    ¬ slotsContiguous ((RateEnforcer.runOps ⟨false, 3, 10, ⟨1, 1⟩⟩ RateEnforcer.initState
      [REOp.frame true true (some 0) 0 ⟨1, 1⟩, REOp.tick true, REOp.tick true,
       REOp.switch (some 1), REOp.frame true true (some 1) 100 ⟨1, 1⟩,
       REOp.tick true]).1.slots) := by
  intro h
  unfold slotsContiguous at h
  have hs : (RateEnforcer.runOps ⟨false, 3, 10, ⟨1, 1⟩⟩ RateEnforcer.initState
      [REOp.frame true true (some 0) 0 ⟨1, 1⟩, REOp.tick true, REOp.tick true,
       REOp.switch (some 1), REOp.frame true true (some 1) 100 ⟨1, 1⟩,
       REOp.tick true]).1.slots =
      [some ⟨none, none, 20, 10⟩, some ⟨some ⟨100, some 1⟩, some 1, 110, 100⟩,
       some ⟨none, some 1, 120, 110⟩] := by
    decide
  rw [hs] at h
  simp only [List.map_cons, List.map_nil] at h
  obtain ⟨h12, -⟩ := List.chain'_cons.mp h
  exact absurd h12 (by decide)

/-- C2 (amended): in the rate enforcer, (i) along any run the slot
window never becomes empty (the next slot is appended before the first
slot is removed — the warm tick's window is exactly the appended window
with its head dropped — and the first slot is not removed while
`len(slots) < slotsCount`); (ii) `slot.next()` is contiguous with its
slot and preserves the slot width; (iii) contiguity of every adjacent
pair of non-nil slots holds after `len(slots) − 1` consecutive warm
ticks with no intervening frame intake, rather than after every tick: a
frame intake may re-anchor the tail slot and leave a non-contiguous
interior pair for up to `len(slots) − 1` ticks. -/
theorem C2_slot_window (cfg : RateEnforcerConfig) (hcnt : 1 ≤ cfg.slotsCount) :
    (∀ (ops : List REOp) (st0 : RateEnforcerState), st0.slots ≠ [] →
      (RateEnforcer.runOps cfg st0 ops).1.slots ≠ []) ∧
    (∀ (st : RateEnforcerState) (ok : Bool), ¬(st.slots.length < cfg.slotsCount) →
      (RateEnforcer.tickFunc cfg st ok).1.slots =
        (appendNextSlot (RateEnforcer.distribute st.slots st.buf).1).tail) ∧
    (∀ (st : RateEnforcerState) (ok : Bool), st.slots.length < cfg.slotsCount →
      (RateEnforcer.tickFunc cfg st ok).1.slots = appendNextSlot st.slots) ∧
    (∀ s : rateEnforcerSlot, (rateEnforcerSlot.next s).ptsMin = s.ptsMax ∧
      (rateEnforcerSlot.next s).ptsMax - (rateEnforcerSlot.next s).ptsMin =
        s.ptsMax - s.ptsMin) ∧
    (∀ (st : RateEnforcerState) (m : Nat), cfg.slotsCount ≤ st.slots.length →
      st.slots.length - 1 ≤ m →
      slotsContiguous ((RateEnforcer.runOps cfg st
        (List.replicate m (REOp.tick true))).1.slots)) := by
  refine ⟨runOps_slots_ne_nil cfg hcnt, ?_, ?_, ?_, ?_⟩
  · intro st ok hw
    unfold RateEnforcer.tickFunc
    simp [hw]
  · intro st ok hw
    unfold RateEnforcer.tickFunc
    simp [hw]
  · intro s
    constructor
    · rfl
    · show s.ptsMax - s.ptsMin + s.ptsMax - s.ptsMax = s.ptsMax - s.ptsMin
      omega
  · intro st m hlen hm
    have hg := runTicks_geom cfg hcnt m st hlen
    unfold slotsContiguous
    rw [hg.1]
    apply gstep_iterate_chain
    rw [List.length_map]
    omega

/-- Witness for C2 at concrete inputs. -/
theorem C2_slot_window_witness :
    (∀ (ops : List REOp) (st0 : RateEnforcerState), st0.slots ≠ [] →
      (RateEnforcer.runOps ⟨false, 1, 10, ⟨1, 1⟩⟩ st0 ops).1.slots ≠ []) ∧
    (∀ (st : RateEnforcerState) (ok : Bool),
      ¬(st.slots.length < (⟨false, 1, 10, ⟨1, 1⟩⟩ : RateEnforcerConfig).slotsCount) →
      (RateEnforcer.tickFunc ⟨false, 1, 10, ⟨1, 1⟩⟩ st ok).1.slots =
        (appendNextSlot (RateEnforcer.distribute st.slots st.buf).1).tail) ∧
    (∀ (st : RateEnforcerState) (ok : Bool),
      st.slots.length < (⟨false, 1, 10, ⟨1, 1⟩⟩ : RateEnforcerConfig).slotsCount →
      (RateEnforcer.tickFunc ⟨false, 1, 10, ⟨1, 1⟩⟩ st ok).1.slots =
        appendNextSlot st.slots) ∧
    (∀ s : rateEnforcerSlot, (rateEnforcerSlot.next s).ptsMin = s.ptsMax ∧
      (rateEnforcerSlot.next s).ptsMax - (rateEnforcerSlot.next s).ptsMin =
        s.ptsMax - s.ptsMin) ∧
    (∀ (st : RateEnforcerState) (m : Nat),
      (⟨false, 1, 10, ⟨1, 1⟩⟩ : RateEnforcerConfig).slotsCount ≤ st.slots.length →
      st.slots.length - 1 ≤ m →
      slotsContiguous ((RateEnforcer.runOps ⟨false, 1, 10, ⟨1, 1⟩⟩ st
        (List.replicate m (REOp.tick true))).1.slots)) :=
  C2_slot_window ⟨false, 1, 10, ⟨1, 1⟩⟩ (by decide)

/-! ## C10: Streams() ordering -/

theorem lookup_isSome_of_mem {α : Type} :
    ∀ (ss : List (Int × α)) (i : Int), i ∈ ss.map Prod.fst → (ss.lookup i).isSome = true
  | [], i, h => by simp at h
  | (k, v) :: rest, i, h => by
    by_cases hik : i = k
    · subst hik
      simp [List.lookup_cons]
    · have hbeq : (i == k) = false := by simpa using hik
      have hmem : i ∈ rest.map Prod.fst := by
        rw [List.map_cons] at h
        rcases List.mem_cons.mp h with h1 | h1
        · exact absurd h1 hik
        · exact h1
      simpa [List.lookup_cons, hbeq] using lookup_isSome_of_mem rest i hmem

theorem map_fst_filterMap_lookup {α : Type} (ss : List (Int × α)) :
    ∀ (l : List Int), (∀ i ∈ l, (ss.lookup i).isSome = true) →
      (l.filterMap fun i => (ss.lookup i).map fun v => (i, v)).map Prod.fst = l
  | [], _ => rfl
  | i :: rest, h => by
    obtain ⟨v, hv⟩ := Option.isSome_iff_exists.mp (h i (by simp))
    have ih := map_fst_filterMap_lookup ss rest (fun j hj => h j (by simp [hj]))
    simp [List.filterMap_cons, hv, ih]

theorem filterMap_lookup_self {α : Type} :
    ∀ (ss : List (Int × α)), (ss.map Prod.fst).Nodup →
      ((ss.map Prod.fst).filterMap fun i => (ss.lookup i).map fun v => (i, v)) = ss
  | [], _ => rfl
  | (k, v) :: rest, hnd => by
    have hk : k ∉ rest.map Prod.fst := (List.nodup_cons.mp (by simpa using hnd)).1
    have hnd' : (rest.map Prod.fst).Nodup := (List.nodup_cons.mp (by simpa using hnd)).2
    have hcong : ∀ i ∈ rest.map Prod.fst,
        ((((k, v) :: rest).lookup i).map fun w => (i, w)) =
          ((rest.lookup i).map fun w => (i, w)) := by
      intro i hi
      have hik : (i == k) = false := by
        have hne : i ≠ k := fun he => hk (he ▸ hi)
        simpa using hne
      simp [List.lookup_cons, hik]
    have hkk : (((k, v) :: rest).lookup k) = some v := by simp [List.lookup_cons]
    have hstep : ((List.map Prod.fst ((k, v) :: rest)).filterMap
        fun i => (((k, v) :: rest).lookup i).map fun w => (i, w)) =
        (k, v) :: ((rest.map Prod.fst).filterMap
          fun i => (((k, v) :: rest).lookup i).map fun w => (i, w)) := by
      simp [List.filterMap_cons, hkk]
    rw [hstep, List.filterMap_congr hcong, filterMap_lookup_self rest hnd']

theorem streams_perm_self {α : Type} (ss : List (Int × α))
    (hnd : (ss.map Prod.fst).Nodup) : (Demuxer.Streams ss).Perm ss := by
  unfold Demuxer.Streams
  have hp := List.perm_insertionSort (fun a b : Int => a ≤ b) (ss.map Prod.fst)
  exact (hp.filterMap _).trans (by rw [filterMap_lookup_self ss hnd])

theorem streams_pairwise {α : Type} (ss : List (Int × α))
    (hnd : (ss.map Prod.fst).Nodup) :
    List.Pairwise (fun a b : Int × α => a.1 < b.1) (Demuxer.Streams ss) := by
  have hkeys : (Demuxer.Streams ss).map Prod.fst =
      (ss.map Prod.fst).insertionSort (fun a b : Int => a ≤ b) := by
    unfold Demuxer.Streams
    apply map_fst_filterMap_lookup
    intro i hi
    exact lookup_isSome_of_mem ss i
      ((List.perm_insertionSort (fun a b : Int => a ≤ b) (ss.map Prod.fst)).subset hi)
  have hsorted : List.Pairwise (fun a b : Int => a ≤ b)
      ((ss.map Prod.fst).insertionSort (fun a b : Int => a ≤ b)) :=
    List.sorted_insertionSort _ _
  have hndS : ((ss.map Prod.fst).insertionSort (fun a b : Int => a ≤ b)).Nodup :=
    ((List.perm_insertionSort _ _).nodup_iff).mpr hnd
  have hlt : List.Pairwise (fun a b : Int => a < b)
      ((ss.map Prod.fst).insertionSort (fun a b : Int => a ≤ b)) :=
    (hsorted.and hndS).imp fun h => lt_of_le_of_ne h.1 h.2
  rw [← hkeys] at hlt
  exact List.pairwise_map.mp hlt

/-- C10: `Demuxer.Streams()` returns exactly one stream per entry of the
internal stream table (the output is a permutation of the table), the
output is ordered by strictly ascending stream index, and the result
does not depend on the iteration order of the underlying map (any two
enumerations of the same table yield equal output). -/
theorem C10_streams_ordered {α : Type} (ss1 ss2 : List (Int × α))
    (hperm : ss1.Perm ss2) (hnd : (ss1.map Prod.fst).Nodup) :
    Demuxer.Streams ss1 = Demuxer.Streams ss2 ∧
    (Demuxer.Streams ss1).Perm ss1 ∧
    List.Chain' (fun a b : Int × α => a.1 < b.1) (Demuxer.Streams ss1) := by
  haveI instT : IsTrans (Int × α) (fun a b : Int × α => a.1 < b.1) :=
    ⟨fun _ _ _ h1 h2 => lt_trans h1 h2⟩
  haveI instA : IsAntisymm (Int × α) (fun a b : Int × α => a.1 < b.1) :=
    ⟨fun _ _ h1 h2 => absurd (lt_trans h1 h2) (lt_irrefl _)⟩
  have hnd2 : (ss2.map Prod.fst).Nodup := ((hperm.map Prod.fst).nodup_iff).mp hnd
  have p1 := streams_perm_self ss1 hnd
  have p2 := streams_perm_self ss2 hnd2
  have hpw1 := streams_pairwise ss1 hnd
  have hpw2 := streams_pairwise ss2 hnd2
  refine ⟨?_, p1, List.chain'_iff_pairwise.mpr hpw1⟩
  exact List.eq_of_perm_of_sorted (p1.trans (hperm.trans p2.symm)) hpw1 hpw2

/-- Witness for C10 at a concrete input. -/
theorem C10_streams_ordered_witness :
    Demuxer.Streams [((2 : Int), (20 : Nat)), (0, 0), (1, 10)] =
      Demuxer.Streams [((0 : Int), (0 : Nat)), (1, 10), (2, 20)] ∧
    (Demuxer.Streams [((2 : Int), (20 : Nat)), (0, 0), (1, 10)]).Perm
      [((2 : Int), (20 : Nat)), (0, 0), (1, 10)] ∧
    List.Chain' (fun a b : Int × Nat => a.1 < b.1)
      (Demuxer.Streams [((2 : Int), (20 : Nat)), (0, 0), (1, 10)]) :=
  C10_streams_ordered [(2, 20), (0, 0), (1, 10)] [(0, 0), (1, 10), (2, 20)]
    (by decide) (by decide)

/-! ## C3: distribute() buffer scan -/

theorem distributeSlot_some (useful : Option Nat → Bool) (sn : Option Nat)
    (mn mx : Int) (a : rateEnforcerItem) (h : mn ≤ mx) (buf : List rateEnforcerItem) :
    distributeSlot useful sn mn mx (some a) buf =
      (some a, buf.filter (keptInBuffer useful sn mx),
       buf.filter fun it => !(keptInBuffer useful sn mx it)) := by
  induction buf with
  | nil => rfl
  | cons it rest ih =>
    by_cases h1 : it.n = sn
    · by_cases h2 : mn ≤ it.pts ∧ it.pts < mx
      · have hk : keptInBuffer useful sn mx it = false := by
          simp [keptInBuffer, h1]
          omega
        simp [distributeSlot, h1, h2, List.filter_cons, hk, ih]
      · by_cases h3 : it.pts < mn
        · have hk : keptInBuffer useful sn mx it = false := by
            simp [keptInBuffer, h1]
            omega
          simp [distributeSlot, h1, h2, h3, List.filter_cons, hk, ih]
        · have hk : keptInBuffer useful sn mx it = true := by
            simp [keptInBuffer, h1]
            omega
          simp [distributeSlot, h1, h2, h3, List.filter_cons, hk, ih]
    · by_cases h4 : useful it.n = true
      · have hk : keptInBuffer useful sn mx it = true := by
          simp [keptInBuffer, h1, h4]
        simp [distributeSlot, h1, h4, List.filter_cons, hk, ih]
      · have hk : keptInBuffer useful sn mx it = false := by
          simp [keptInBuffer, h1, h4]
        simp [distributeSlot, h1, h4, List.filter_cons, hk, ih]

theorem distributeSlot_none (useful : Option Nat → Bool) (sn : Option Nat)
    (mn mx : Int) (h : mn ≤ mx) (buf : List rateEnforcerItem) :
    distributeSlot useful sn mn mx none buf =
      (buf.find? (inSlotRange sn mn mx),
       buf.filter (keptInBuffer useful sn mx),
       (buf.filter fun it => !(keptInBuffer useful sn mx it)).eraseP
         (inSlotRange sn mn mx)) := by
  induction buf with
  | nil => rfl
  | cons it rest ih =>
    by_cases h1 : it.n = sn
    · by_cases h2 : mn ≤ it.pts ∧ it.pts < mx
      · have hin : inSlotRange sn mn mx it = true := by
          simp [inSlotRange, h1]
          omega
        have hk : keptInBuffer useful sn mx it = false := by
          simp [keptInBuffer, h1]
          omega
        simp only [distributeSlot, if_neg (by simp [h1] : ¬it.n ≠ sn), if_pos h2]
        rw [distributeSlot_some useful sn mn mx it h rest]
        simp [List.find?_cons, hin, List.filter_cons, hk, List.eraseP_cons]
      · by_cases h3 : it.pts < mn
        · have hin : inSlotRange sn mn mx it = false := by
            simp [inSlotRange, h1]
            omega
          have hk : keptInBuffer useful sn mx it = false := by
            simp [keptInBuffer, h1]
            omega
          simp [distributeSlot, h1, h2, h3, List.find?_cons, hin, List.filter_cons, hk,
            List.eraseP_cons, ih]
        · have hin : inSlotRange sn mn mx it = false := by
            simp [inSlotRange, h1]
            omega
          have hk : keptInBuffer useful sn mx it = true := by
            simp [keptInBuffer, h1]
            omega
          simp [distributeSlot, h1, h2, h3, List.find?_cons, hin, List.filter_cons, hk,
            List.eraseP_cons, ih]
    · have hin : inSlotRange sn mn mx it = false := by
        simp [inSlotRange, h1]
      by_cases h4 : useful it.n = true
      · have hk : keptInBuffer useful sn mx it = true := by
          simp [keptInBuffer, h1, h4]
        simp [distributeSlot, h1, h4, List.find?_cons, hin, List.filter_cons, hk,
          List.eraseP_cons, ih]
      · have hk : keptInBuffer useful sn mx it = false := by
          simp [keptInBuffer, h1, h4]
        simp [distributeSlot, h1, h4, List.find?_cons, hin, List.filter_cons, hk,
          List.eraseP_cons, ih]

/-- C3: in every `RateEnforcer.distribute()` call, each empty non-nil
slot scans the buffer in order; the scan (i) assigns to the slot the
first buffered frame of the slot's node with `ptsMin ≤ pts < ptsMax`,
(ii) keeps in the buffer exactly the frames of other nodes that some
slot still references and the frames of the slot's node with
`pts ≥ ptsMax`, and (iii) returns every other frame to the pool: frames
of nodes referenced by no slot, stale frames (`pts < ptsMin`) of the
slot's node, and in-range frames after the first (later duplicates).
Moreover `distribute()` is exactly the per-slot scan folded over the
slot window with the useful-node set computed from the slots. -/
theorem C3_distribute_scan (useful : Option Nat → Bool) (sn : Option Nat)
    (mn mx : Int) (buf : List rateEnforcerItem) (h : mn ≤ mx) :
    distributeSlot useful sn mn mx none buf =
      (buf.find? (inSlotRange sn mn mx),
       buf.filter (keptInBuffer useful sn mx),
       (buf.filter fun it => !(keptInBuffer useful sn mx it)).eraseP
         (inSlotRange sn mn mx)) ∧
    (∀ (n : Option Nat) (pmx pmn : Int) (rest : List (Option rateEnforcerSlot)),
      distributeSlots useful (some ⟨none, n, pmx, pmn⟩ :: rest) buf =
        ((some ⟨(distributeSlot useful n pmn pmx none buf).1, n, pmx, pmn⟩) ::
            (distributeSlots useful rest (distributeSlot useful n pmn pmx none buf).2.1).1,
         (distributeSlots useful rest (distributeSlot useful n pmn pmx none buf).2.1).2.1,
         (distributeSlot useful n pmn pmx none buf).2.2 ++
           (distributeSlots useful rest (distributeSlot useful n pmn pmx none buf).2.1).2.2)) ∧
    RateEnforcer.distribute =
      fun slots buf' => distributeSlots (isUsefulNode slots) slots buf' := by
  refine ⟨distributeSlot_none useful sn mn mx h buf, ?_, rfl⟩
  intro n pmx pmn rest
  rfl

/-- Witness for C3 at a concrete input. -/
theorem C3_distribute_scan_witness :
    (distributeSlot (fun x => decide (x = some 1)) (some 0) 0 10 none
        [⟨3, some 0⟩, ⟨5, some 0⟩, ⟨-2, some 0⟩, ⟨12, some 0⟩, ⟨4, some 2⟩, ⟨6, some 1⟩] =
      ([⟨3, some 0⟩, ⟨5, some 0⟩, ⟨-2, some 0⟩, ⟨12, some 0⟩, ⟨4, some 2⟩,
          ⟨6, some 1⟩].find? (inSlotRange (some 0) 0 10),
       [⟨3, some 0⟩, ⟨5, some 0⟩, ⟨-2, some 0⟩, ⟨12, some 0⟩, ⟨4, some 2⟩,
          ⟨6, some 1⟩].filter (keptInBuffer (fun x => decide (x = some 1)) (some 0) 10),
       ([⟨3, some 0⟩, ⟨5, some 0⟩, ⟨-2, some 0⟩, ⟨12, some 0⟩, ⟨4, some 2⟩,
           ⟨6, some 1⟩].filter fun it =>
             !(keptInBuffer (fun x => decide (x = some 1)) (some 0) 10 it)).eraseP
         (inSlotRange (some 0) 0 10))) ∧
    (∀ (n : Option Nat) (pmx pmn : Int) (rest : List (Option rateEnforcerSlot)),
      distributeSlots (fun x => decide (x = some 1)) (some ⟨none, n, pmx, pmn⟩ :: rest)
          [⟨3, some 0⟩, ⟨5, some 0⟩, ⟨-2, some 0⟩, ⟨12, some 0⟩, ⟨4, some 2⟩, ⟨6, some 1⟩] =
        ((some ⟨(distributeSlot (fun x => decide (x = some 1)) n pmn pmx none
              [⟨3, some 0⟩, ⟨5, some 0⟩, ⟨-2, some 0⟩, ⟨12, some 0⟩, ⟨4, some 2⟩,
                ⟨6, some 1⟩]).1, n, pmx, pmn⟩) ::
            (distributeSlots (fun x => decide (x = some 1)) rest
              (distributeSlot (fun x => decide (x = some 1)) n pmn pmx none
                [⟨3, some 0⟩, ⟨5, some 0⟩, ⟨-2, some 0⟩, ⟨12, some 0⟩, ⟨4, some 2⟩,
                  ⟨6, some 1⟩]).2.1).1,
         (distributeSlots (fun x => decide (x = some 1)) rest
            (distributeSlot (fun x => decide (x = some 1)) n pmn pmx none
              [⟨3, some 0⟩, ⟨5, some 0⟩, ⟨-2, some 0⟩, ⟨12, some 0⟩, ⟨4, some 2⟩,
                ⟨6, some 1⟩]).2.1).2.1,
         (distributeSlot (fun x => decide (x = some 1)) n pmn pmx none
            [⟨3, some 0⟩, ⟨5, some 0⟩, ⟨-2, some 0⟩, ⟨12, some 0⟩, ⟨4, some 2⟩,
              ⟨6, some 1⟩]).2.2 ++
           (distributeSlots (fun x => decide (x = some 1)) rest
              (distributeSlot (fun x => decide (x = some 1)) n pmn pmx none
                [⟨3, some 0⟩, ⟨5, some 0⟩, ⟨-2, some 0⟩, ⟨12, some 0⟩, ⟨4, some 2⟩,
                  ⟨6, some 1⟩]).2.1).2.2)) ∧
    RateEnforcer.distribute =
      fun slots buf' => distributeSlots (isUsefulNode slots) slots buf' :=
  C3_distribute_scan (fun x => decide (x = some 1)) (some 0) 0 10
    [⟨3, some 0⟩, ⟨5, some 0⟩, ⟨-2, some 0⟩, ⟨12, some 0⟩, ⟨4, some 2⟩, ⟨6, some 1⟩]
    (by decide)

/-! ## C4: tick dispatch and fill accounting -/

theorem current_not_filled (slots : List (Option rateEnforcerSlot))
    (ff : Option Int) (fn : Option Nat) (ok : Bool)
    (h : (RateEnforcer.current slots ff fn ok).2.1 = false) :
    (RateEnforcer.current slots ff fn ok).1.isSome = true := by
  unfold RateEnforcer.current at *
  rcases hh : slots.head? with _ | os
  · simp [hh, previousFill] at h
  · rcases os with _ | s
    · simp [hh, previousFill] at h
    · rcases hi : s.i with _ | it
      · simp [hh, hi, previousFill] at h
      · simp [hi]

theorem tickFunc_statFilled (cfg : RateEnforcerConfig) (st : RateEnforcerState) (ok : Bool) :
    (RateEnforcer.tickFunc cfg st ok).1.statFilled =
      st.statFilled +
        (if (RateEnforcer.tickFunc cfg st ok).2.warm &&
            (RateEnforcer.tickFunc cfg st ok).2.filled then 1 else 0) := by
  unfold RateEnforcer.tickFunc
  by_cases hw : st.slots.length < cfg.slotsCount
  · simp [hw]
  · rcases hfill : (RateEnforcer.current (RateEnforcer.distribute st.slots st.buf).1
      st.fillerFrame st.fillerNode ok).2.1 with _ | _ <;>
      simp [hw, hfill]

theorem tickFunc_dispatch_coverage (cfg : RateEnforcerConfig) (st : RateEnforcerState)
    (ok : Bool)
    (h : ((RateEnforcer.tickFunc cfg st ok).2.warm &&
      !(RateEnforcer.tickFunc cfg st ok).2.filled) = true) :
    ((RateEnforcer.tickFunc cfg st ok).2.dispatched).isSome = true := by
  unfold RateEnforcer.tickFunc at *
  by_cases hw : st.slots.length < cfg.slotsCount
  · simp [hw] at h
  · simp only [hw, if_false, Bool.and_eq_true, Bool.not_eq_true] at h
    simp only [hw, if_false]
    exact current_not_filled _ _ _ _ (by simpa using h.2)

theorem handleFrame_statFilled (cfg : RateEnforcerConfig) (st : RateEnforcerState)
    (r1 r2 : Bool) (n : Option Nat) (p : Int) (tb : AVRational) :
    (RateEnforcer.handleFrame cfg st r1 r2 n p tb).statFilled = st.statFilled := by
  unfold RateEnforcer.handleFrame
  cases r1 <;> cases r2 <;>
    simp [apply_ite RateEnforcerState.statFilled, apply_ite RateEnforcerState.events]

theorem runOps_statFilled_coverage (cfg : RateEnforcerConfig) :
    ∀ (ops : List REOp) (st0 : RateEnforcerState),
      (RateEnforcer.runOps cfg st0 ops).1.statFilled =
        st0.statFilled +
          ((RateEnforcer.runOps cfg st0 ops).2.countP fun o => o.warm && o.filled) ∧
      (∀ o ∈ (RateEnforcer.runOps cfg st0 ops).2,
        (o.warm && !o.filled) = true → o.dispatched.isSome = true)
  | [], st0 => by simp [RateEnforcer.runOps]
  | REOp.tick ok :: rest, st0 => by
    have ih := runOps_statFilled_coverage cfg rest (RateEnforcer.tickFunc cfg st0 ok).1
    have hstat := tickFunc_statFilled cfg st0 ok
    simp only [RateEnforcer.runOps]
    refine ⟨?_, ?_⟩
    · rw [ih.1, hstat, List.countP_cons]
      by_cases hc : ((RateEnforcer.tickFunc cfg st0 ok).2.warm &&
          (RateEnforcer.tickFunc cfg st0 ok).2.filled) = true
      · simp only [hc, if_true, if_pos]
        omega
      · simp only [hc, if_false, if_neg]
        simp only [Bool.not_eq_true] at hc
        simp [hc]
    · intro o ho hwf
      rcases List.mem_cons.mp ho with ho1 | ho1
      · subst ho1
        exact tickFunc_dispatch_coverage cfg st0 ok hwf
      · exact ih.2 o ho1 hwf
  | REOp.frame r1 r2 n p tb :: rest, st0 => by
    have ih := runOps_statFilled_coverage cfg rest (RateEnforcer.handleFrame cfg st0 r1 r2 n p tb)
    simp only [RateEnforcer.runOps]
    refine ⟨?_, ih.2⟩
    rw [ih.1, handleFrame_statFilled]
  | REOp.switch n :: rest, st0 => by
    have ih := runOps_statFilled_coverage cfg rest (RateEnforcer.Switch st0 n)
    simp only [RateEnforcer.runOps]
    exact ih

theorem countP_dispatch_split :
    ∀ (l : List TickOut),
      (∀ o ∈ l, (o.warm && !o.filled) = true → o.dispatched.isSome = true) →
      (l.countP fun o => o.warm && o.filled) +
        (l.countP fun o => o.warm && !o.filled && o.dispatched.isSome) =
        (l.countP fun o => o.warm)
  | [], _ => rfl
  | o :: rest, h => by
    have ih := countP_dispatch_split rest fun x hx => h x (List.mem_cons_of_mem o hx)
    have ho := h o (List.mem_cons_self o rest)
    simp only [List.countP_cons]
    rcases hwarm : o.warm with _ | _
    · simp [hwarm]
      omega
    · rcases hfill : o.filled with _ | _
      · have hd : o.dispatched.isSome = true := ho (by simp [hwarm, hfill])
        simp [hwarm, hfill, hd]
        omega
      · simp [hwarm, hfill]
        omega

theorem tickFunc_slot_item (cfg : RateEnforcerConfig) (st : RateEnforcerState) (ok : Bool)
    (s : rateEnforcerSlot) (it : rateEnforcerItem)
    (hw : ¬(st.slots.length < cfg.slotsCount))
    (h0 : (RateEnforcer.distribute st.slots st.buf).1.head? = some (some s))
    (hi : s.i = some it) :
    (RateEnforcer.tickFunc cfg st ok).2.dispatched = some it ∧
    (RateEnforcer.tickFunc cfg st ok).2.filled = false ∧
    (RateEnforcer.tickFunc cfg st ok).1.fillerNode = it.n ∧
    (RateEnforcer.tickFunc cfg st ok).1.fillerFrame = (if ok then some it.pts else none) ∧
    (RateEnforcer.tickFunc cfg st ok).1.pooled =
      st.pooled ++ (RateEnforcer.distribute st.slots st.buf).2.2.map rateEnforcerItem.pts
        ++ [it.pts] ∧
    (RateEnforcer.tickFunc cfg st ok).1.statFilled = st.statFilled := by
  have hcur : RateEnforcer.current (RateEnforcer.distribute st.slots st.buf).1
      st.fillerFrame st.fillerNode ok =
      (some it, false, if ok then some it.pts else none, it.n) := by
    unfold RateEnforcer.current
    rw [h0]
    simp [hi]
  unfold RateEnforcer.tickFunc
  simp [hw, hcur]

theorem tickFunc_fill (cfg : RateEnforcerConfig) (st : RateEnforcerState) (ok : Bool)
    (hw : ¬(st.slots.length < cfg.slotsCount))
    (hempty : ∀ s, (RateEnforcer.distribute st.slots st.buf).1.head? = some (some s) →
      s.i = none) :
    (RateEnforcer.tickFunc cfg st ok).2.filled = true ∧
    (RateEnforcer.tickFunc cfg st ok).1.statFilled = st.statFilled + 1 ∧
    (RateEnforcer.tickFunc cfg st ok).2.dispatched =
      st.fillerFrame.map fun f => ⟨f, st.fillerNode⟩ := by
  have hcur : RateEnforcer.current (RateEnforcer.distribute st.slots st.buf).1
      st.fillerFrame st.fillerNode ok = previousFill st.fillerFrame st.fillerNode := by
    unfold RateEnforcer.current
    rcases hh : (RateEnforcer.distribute st.slots st.buf).1.head? with _ | os
    · rfl
    · rcases os with _ | s
      · rfl
      · simp [hempty s hh]
  unfold RateEnforcer.tickFunc
  simp [hw, hcur, previousFill]

/-- C4: counterexample to the claim as stated.  With the default
(previous) filler and nothing dispatched yet, a tick past warmup
dispatches no frame at all: `current()` sets `filled` even when
`Fill()` returns nil, so the tick is counted as filled but nothing is
dispatched; “exactly one frame is dispatched” per warm tick is false. -/
theorem C4_counterexample :
    (RateEnforcer.tickFunc ⟨false, 1, 10, ⟨1, 1⟩⟩ RateEnforcer.initState true).2.warm = true ∧
    (RateEnforcer.tickFunc ⟨false, 1, 10, ⟨1, 1⟩⟩ RateEnforcer.initState true).2.filled = true ∧
    (RateEnforcer.tickFunc ⟨false, 1, 10, ⟨1, 1⟩⟩
      RateEnforcer.initState true).2.dispatched = none := by
  decide

/-- C4 (amended): for every rate-enforcer tick past warmup
(`len(slots) ≥ slotsCount`): when slot 0 holds an assigned item the item
is dispatched, the filler is informed via `NoFill` (it stores the item's
node, and the item's frame when its ref succeeds), the frame is returned
to the pool after dispatch, and the filled stat is untouched; otherwise
the tick is a fill: the filled-rate stat is incremented and a frame is
dispatched iff the previous filler holds one (so a warm tick may
dispatch nothing).  Over any run, the filled count plus the count of
warm ticks that dispatched a slot item equals the number of ticks past
warmup. -/
theorem C4_tick_dispatch_accounting (cfg : RateEnforcerConfig)
    (st0 : RateEnforcerState) (ops : List REOp) :
    ((RateEnforcer.runOps cfg st0 ops).1.statFilled =
      st0.statFilled +
        ((RateEnforcer.runOps cfg st0 ops).2.countP fun o => o.warm && o.filled) ∧
     ((RateEnforcer.runOps cfg st0 ops).2.countP fun o => o.warm && o.filled) +
       ((RateEnforcer.runOps cfg st0 ops).2.countP
         fun o => o.warm && !o.filled && o.dispatched.isSome) =
       ((RateEnforcer.runOps cfg st0 ops).2.countP fun o => o.warm)) ∧
    (∀ (st : RateEnforcerState) (ok : Bool) (s : rateEnforcerSlot) (it : rateEnforcerItem),
      ¬(st.slots.length < cfg.slotsCount) →
      (RateEnforcer.distribute st.slots st.buf).1.head? = some (some s) →
      s.i = some it →
      (RateEnforcer.tickFunc cfg st ok).2.dispatched = some it ∧
      (RateEnforcer.tickFunc cfg st ok).2.filled = false ∧
      (RateEnforcer.tickFunc cfg st ok).1.fillerNode = it.n ∧
      (RateEnforcer.tickFunc cfg st ok).1.fillerFrame = (if ok then some it.pts else none) ∧
      (RateEnforcer.tickFunc cfg st ok).1.pooled =
        st.pooled ++ (RateEnforcer.distribute st.slots st.buf).2.2.map rateEnforcerItem.pts
          ++ [it.pts] ∧
      (RateEnforcer.tickFunc cfg st ok).1.statFilled = st.statFilled) ∧
    (∀ (st : RateEnforcerState) (ok : Bool),
      ¬(st.slots.length < cfg.slotsCount) →
      (∀ s', (RateEnforcer.distribute st.slots st.buf).1.head? = some (some s') →
        s'.i = none) →
      (RateEnforcer.tickFunc cfg st ok).2.filled = true ∧
      (RateEnforcer.tickFunc cfg st ok).1.statFilled = st.statFilled + 1 ∧
      (RateEnforcer.tickFunc cfg st ok).2.dispatched =
        st.fillerFrame.map fun f => ⟨f, st.fillerNode⟩) := by
  have hrun := runOps_statFilled_coverage cfg ops st0
  exact ⟨⟨hrun.1, countP_dispatch_split _ hrun.2⟩,
    fun st ok s it hw h0 hi => tickFunc_slot_item cfg st ok s it hw h0 hi,
    fun st ok hw hempty => tickFunc_fill cfg st ok hw hempty⟩

/-- Witness for C4 at concrete inputs: a run with one warm fill tick and
one warm slot-sourced tick, and the two per-tick scenarios. -/
theorem C4_tick_dispatch_accounting_witness :
    ((RateEnforcer.runOps ⟨false, 1, 10, ⟨1, 1⟩⟩ RateEnforcer.initState
        [REOp.frame true true (some 0) 0 ⟨1, 1⟩, REOp.tick true, REOp.tick true]).1.statFilled =
      RateEnforcer.initState.statFilled +
        ((RateEnforcer.runOps ⟨false, 1, 10, ⟨1, 1⟩⟩ RateEnforcer.initState
          [REOp.frame true true (some 0) 0 ⟨1, 1⟩, REOp.tick true, REOp.tick true]).2.countP
            fun o => o.warm && o.filled) ∧
     ((RateEnforcer.runOps ⟨false, 1, 10, ⟨1, 1⟩⟩ RateEnforcer.initState
        [REOp.frame true true (some 0) 0 ⟨1, 1⟩, REOp.tick true, REOp.tick true]).2.countP
          fun o => o.warm && o.filled) +
       ((RateEnforcer.runOps ⟨false, 1, 10, ⟨1, 1⟩⟩ RateEnforcer.initState
          [REOp.frame true true (some 0) 0 ⟨1, 1⟩, REOp.tick true, REOp.tick true]).2.countP
            fun o => o.warm && !o.filled && o.dispatched.isSome) =
       ((RateEnforcer.runOps ⟨false, 1, 10, ⟨1, 1⟩⟩ RateEnforcer.initState
          [REOp.frame true true (some 0) 0 ⟨1, 1⟩, REOp.tick true, REOp.tick true]).2.countP
            fun o => o.warm)) ∧
    ((RateEnforcer.tickFunc ⟨false, 1, 10, ⟨1, 1⟩⟩
        { RateEnforcer.initState with
            slots := [some ⟨none, some 0, 10, 0⟩], buf := [⟨4, some 0⟩] } true).2.dispatched =
      some ⟨4, some 0⟩ ∧
     (RateEnforcer.tickFunc ⟨false, 1, 10, ⟨1, 1⟩⟩
        { RateEnforcer.initState with
            slots := [some ⟨none, some 0, 10, 0⟩], buf := [⟨4, some 0⟩] } true).2.filled =
      false ∧
     (RateEnforcer.tickFunc ⟨false, 1, 10, ⟨1, 1⟩⟩
        { RateEnforcer.initState with
            slots := [some ⟨none, some 0, 10, 0⟩], buf := [⟨4, some 0⟩] } true).1.fillerNode =
      (⟨4, some 0⟩ : rateEnforcerItem).n ∧
     (RateEnforcer.tickFunc ⟨false, 1, 10, ⟨1, 1⟩⟩
        { RateEnforcer.initState with
            slots := [some ⟨none, some 0, 10, 0⟩], buf := [⟨4, some 0⟩] } true).1.fillerFrame =
      (if true then some (⟨4, some 0⟩ : rateEnforcerItem).pts else none) ∧
     (RateEnforcer.tickFunc ⟨false, 1, 10, ⟨1, 1⟩⟩
        { RateEnforcer.initState with
            slots := [some ⟨none, some 0, 10, 0⟩], buf := [⟨4, some 0⟩] } true).1.pooled =
      ({ RateEnforcer.initState with
           slots := [some ⟨none, some 0, 10, 0⟩], buf := [⟨4, some 0⟩] }
         : RateEnforcerState).pooled ++
        (RateEnforcer.distribute [some ⟨none, some 0, 10, 0⟩]
          [⟨4, some 0⟩]).2.2.map rateEnforcerItem.pts ++ [(⟨4, some 0⟩ : rateEnforcerItem).pts] ∧
     (RateEnforcer.tickFunc ⟨false, 1, 10, ⟨1, 1⟩⟩
        { RateEnforcer.initState with
            slots := [some ⟨none, some 0, 10, 0⟩], buf := [⟨4, some 0⟩] } true).1.statFilled =
      ({ RateEnforcer.initState with
           slots := [some ⟨none, some 0, 10, 0⟩], buf := [⟨4, some 0⟩] }
         : RateEnforcerState).statFilled) ∧
    ((RateEnforcer.tickFunc ⟨false, 1, 10, ⟨1, 1⟩⟩ RateEnforcer.initState true).2.filled =
      true ∧
     (RateEnforcer.tickFunc ⟨false, 1, 10, ⟨1, 1⟩⟩ RateEnforcer.initState true).1.statFilled =
      RateEnforcer.initState.statFilled + 1 ∧
     (RateEnforcer.tickFunc ⟨false, 1, 10, ⟨1, 1⟩⟩ RateEnforcer.initState true).2.dispatched =
      RateEnforcer.initState.fillerFrame.map
        fun f => ⟨f, RateEnforcer.initState.fillerNode⟩) := by
  have h := C4_tick_dispatch_accounting ⟨false, 1, 10, ⟨1, 1⟩⟩ RateEnforcer.initState
    [REOp.frame true true (some 0) 0 ⟨1, 1⟩, REOp.tick true, REOp.tick true]
  refine ⟨h.1, ?_, ?_⟩
  · exact h.2.1 { RateEnforcer.initState with
      slots := [some ⟨none, some 0, 10, 0⟩], buf := [⟨4, some 0⟩] } true
      ⟨some ⟨4, some 0⟩, some 0, 10, 0⟩ ⟨4, some 0⟩ (by decide) (by decide) (by decide)
  · refine h.2.2 RateEnforcer.initState true (by decide) ?_
    intro s' hs'
    have hh : (RateEnforcer.distribute RateEnforcer.initState.slots
        RateEnforcer.initState.buf).1.head? = some none := by decide
    rw [hh] at hs'
    simp at hs'

/-! ## C8: ref failures during intake -/

/-- C8: counterexample to the claim as stated.  When the second frame
`Ref` (copying into the buffered item) fails inside
`RateEnforcer.HandleFrame`'s serial task, the tail slot has already been
re-anchored and the `SwitchedIn` event already emitted, and neither is
rolled back: the state is not “otherwise unchanged by the failed
intake”. -/
theorem C8_counterexample :
    (RateEnforcer.handleFrame ⟨false, 3, 10, ⟨1, 1⟩⟩
        { slots := [some ⟨none, some 0, 10, 0⟩], buf := [], n := some 1,
          fillerFrame := none, fillerNode := none, previousNode := none,
          statIncoming := 0, statProcessed := 0, statFilled := 0, pooled := [], events := [] }
        true false (some 1) 50 ⟨1, 1⟩).slots ≠ [some ⟨none, some 0, 10, 0⟩] ∧
    (RateEnforcer.handleFrame ⟨false, 3, 10, ⟨1, 1⟩⟩
        { slots := [some ⟨none, some 0, 10, 0⟩], buf := [], n := some 1,
          fillerFrame := none, fillerNode := none, previousNode := none,
          statIncoming := 0, statProcessed := 0, statFilled := 0, pooled := [], events := [] }
        true false (some 1) 50 ⟨1, 1⟩).buf = [] ∧
    (RateEnforcer.handleFrame ⟨false, 3, 10, ⟨1, 1⟩⟩
        { slots := [some ⟨none, some 0, 10, 0⟩], buf := [], n := some 1,
          fillerFrame := none, fillerNode := none, previousNode := none,
          statIncoming := 0, statProcessed := 0, statFilled := 0, pooled := [], events := [] }
        true false (some 1) 50 ⟨1, 1⟩).events =
      [REEvent.switchedIn (some 1), REEvent.error] := by
  decide

/-- C8 (amended): a failed `Ref` during intake emits an error event,
skips the item (it is never buffered, so never dispatched) and
processing continues; on the first `Ref` failure in `HandleFrame` the
state is otherwise unchanged except the incoming-rate stat; the demuxer
rate emulator's failed packet `Ref` leaves its state entirely unchanged
(nothing scheduled, no backpressure).  However, on the second `Ref`
failure in `HandleFrame` the slot-window update (and the `SwitchedIn`
event) of the intake have already happened and persist exactly as in a
successful intake. -/
theorem C8_ref_failure_effects (cfg : RateEnforcerConfig) (st : RateEnforcerState)
    (r2 : Bool) (node : Option Nat) (pts : Int) (tb : AVRational)
    (e : demuxerRateEmulator) (now prev : Int) (tb2 : AVRational) :
    RateEnforcer.handleFrame cfg st false r2 node pts tb =
      { st with statIncoming := st.statIncoming + 1,
                events := st.events ++ [REEvent.error] } ∧
    (RateEnforcer.handleFrame cfg st true false node pts tb).buf = st.buf ∧
    (RateEnforcer.handleFrame cfg st true false node pts tb).slots =
      (RateEnforcer.handleFrame cfg st true true node pts tb).slots ∧
    (RateEnforcer.handleFrame cfg st true false node pts tb).events =
      (RateEnforcer.handleFrame cfg st true true node pts tb).events ++ [REEvent.error] ∧
    (RateEnforcer.handleFrame cfg st true true node pts tb).buf =
      st.buf ++ [⟨rescaleQ pts tb cfg.outputTimeBase, node⟩] ∧
    demuxerRateEmulator.handlePkt e now false prev tb2 = ⟨e, none, 0, true⟩ := by
  refine ⟨rfl, ?_, rfl, ?_, ?_, rfl⟩
  · unfold RateEnforcer.handleFrame
    simp [apply_ite RateEnforcerState.buf]
  · unfold RateEnforcer.handleFrame
    simp [apply_ite RateEnforcerState.events]
  · unfold RateEnforcer.handleFrame
    simp [apply_ite RateEnforcerState.buf]

end Astilibav

namespace Astiencoder

/-! ## C7: logger merging -/

theorem lookup_bump (k : LogLevel × String) :
    ∀ (entries : List ((LogLevel × String) × Nat)) (p : LogLevel × String),
      (entries.map fun kv => if kv.1 = k then (kv.1, kv.2 + 1) else kv).lookup p =
        (entries.lookup p).map fun c => if p = k then c + 1 else c
  | [], _ => rfl
  | (q, c) :: rest, p => by
    by_cases hpq : p = q
    · subst hpq
      by_cases hk : p = k
      · subst hk
        simp [List.lookup_cons]
      · simp [List.lookup_cons, if_neg hk, hk]
    · have hbeq : (p == q) = false := by simpa using hpq
      by_cases hk : q = k
      · simp only [List.map_cons, if_pos hk, List.lookup_cons, hbeq]
        exact lookup_bump k rest p
      · simp only [List.map_cons, if_neg hk, List.lookup_cons, hbeq]
        exact lookup_bump k rest p

theorem lookup_append_singleton (k : LogLevel × String) (v : Nat) :
    ∀ (entries : List ((LogLevel × String) × Nat)) (p : LogLevel × String),
      (entries ++ [(k, v)]).lookup p =
        (match entries.lookup p with
         | some c => some c
         | none => if p = k then some v else none)
  | [], p => by
    by_cases hk : p = k
    · simp [List.lookup_cons, hk]
    · have hbeq : (p == k) = false := by simpa using hk
      simp [List.lookup_cons, hbeq, hk]
  | (q, c) :: rest, p => by
    by_cases hpq : p = q
    · subst hpq
      simp [List.lookup_cons]
    · have hbeq : (p == q) = false := by simpa using hpq
      simp only [List.cons_append, List.lookup_cons, hbeq]
      exact lookup_append_singleton k v rest p

theorem lookup_self :
    ∀ (entries : List ((LogLevel × String) × Nat)),
      (entries.map Prod.fst).Nodup →
      ∀ kv ∈ entries, entries.lookup kv.1 = some kv.2
  | [], _, kv, h => by simp at h
  | (q, c) :: rest, hnd, kv, h => by
    rcases List.mem_cons.mp h with h1 | h1
    · subst h1
      simp [List.lookup_cons]
    · have hq : q ∉ rest.map Prod.fst := (List.nodup_cons.mp (by simpa using hnd)).1
      have hne : kv.1 ≠ q := by
        intro he
        exact hq (he ▸ List.mem_map_of_mem Prod.fst h1)
      have hbeq : (kv.1 == q) = false := by simpa using hne
      simp only [List.lookup_cons, hbeq]
      exact lookup_self rest (List.nodup_cons.mp (by simpa using hnd)).2 kv h1

theorem lookup_isSome_iff :
    ∀ (entries : List ((LogLevel × String) × Nat)) (p : LogLevel × String),
      ((entries.lookup p).isSome = true) ↔ p ∈ entries.map Prod.fst
  | [], p => by simp
  | (q, c) :: rest, p => by
    by_cases hpq : p = q
    · subst hpq
      simp [List.lookup_cons]
    · have hbeq : (p == q) = false := by simpa using hpq
      simp only [List.lookup_cons, hbeq, List.map_cons, List.mem_cons]
      rw [lookup_isSome_iff rest p]
      simp [hpq]

theorem mem_firstOcc_foldl {α : Type} [DecidableEq α] :
    ∀ (l : List α) (acc : List α) (x : α),
      (x ∈ firstOccFold acc l) ↔ (x ∈ acc ∨ x ∈ l)
  | [], acc, x => by simp [firstOccFold]
  | y :: rest, acc, x => by
    simp only [firstOccFold, List.foldl_cons]
    rw [show (rest.foldl (fun acc x => if x ∈ acc then acc else acc ++ [x])
        (if y ∈ acc then acc else acc ++ [y])) =
        firstOccFold (if y ∈ acc then acc else acc ++ [y]) rest from rfl,
      mem_firstOcc_foldl rest _ x]
    by_cases hy : y ∈ acc
    · simp only [if_pos hy, List.mem_cons]
      constructor
      · rintro (h | h)
        · exact Or.inl h
        · exact Or.inr (Or.inr h)
      · rintro (h | h | h)
        · exact Or.inl h
        · exact Or.inl (h ▸ hy)
        · exact Or.inr h
    · simp only [if_neg hy, List.mem_append, List.mem_cons, List.mem_singleton]
      tauto

theorem mergeFold_invariant :
    ∀ (done : List LogEmit) (entries : List ((LogLevel × String) × Nat))
      (lines : List String),
      (entries.map Prod.fst).Nodup →
      ((done.foldl mergeStep (entries, lines)).1.map Prod.fst =
        firstOccFold (entries.map Prod.fst) (done.map LogEmit.patternKey)) ∧
      ((done.foldl mergeStep (entries, lines)).1.map Prod.fst).Nodup ∧
      ((done.foldl mergeStep (entries, lines)).2.length + entries.length =
        lines.length + (done.foldl mergeStep (entries, lines)).1.length) ∧
      (∀ p, (((done.foldl mergeStep (entries, lines)).1.lookup p).getD 0) =
        ((entries.lookup p).getD 0) + (done.countP fun e => e.patternKey = p))
  | [], entries, lines, hnd => by
    refine ⟨rfl, hnd, by simp, ?_⟩
    intro p
    simp
  | e :: rest, entries, lines, hnd => by
    by_cases hmem : (entries.lookup e.patternKey).isSome = true
    · have hstep : mergeStep (entries, lines) e =
          (entries.map fun kv => if kv.1 = e.patternKey then (kv.1, kv.2 + 1) else kv,
           lines) := by
        unfold mergeStep
        simp [hmem]
      have hkeys' : ((entries.map fun kv =>
          if kv.1 = e.patternKey then (kv.1, kv.2 + 1) else kv).map Prod.fst) =
          entries.map Prod.fst := by
        rw [List.map_map]
        apply List.map_congr_left
        intro kv _
        by_cases h : kv.1 = e.patternKey <;> simp [h]
      have ih := mergeFold_invariant rest
        (entries.map fun kv => if kv.1 = e.patternKey then (kv.1, kv.2 + 1) else kv)
        lines (by rw [hkeys']; exact hnd)
      have hmemkeys : e.patternKey ∈ entries.map Prod.fst :=
        (lookup_isSome_iff entries e.patternKey).mp hmem
      simp only [List.foldl_cons, List.map_cons, hstep]
      refine ⟨?_, ih.2.1, ?_, ?_⟩
      · have hr : firstOccFold (entries.map Prod.fst)
            (e.patternKey :: rest.map LogEmit.patternKey) =
            firstOccFold (entries.map Prod.fst) (rest.map LogEmit.patternKey) := by
          simp only [firstOccFold, List.foldl_cons]
          simp [hmemkeys]
        rw [ih.1, hkeys', hr]
      · have h3 := ih.2.2.1
        rw [List.length_map] at h3
        exact h3
      · intro p
        have h4 := ih.2.2.2 p
        rw [h4, lookup_bump e.patternKey entries p, List.countP_cons]
        by_cases hp : p = e.patternKey
        · subst hp
          obtain ⟨c, hc⟩ := Option.isSome_iff_exists.mp hmem
          rw [hc]
          simp
          omega
        · rcases hlk : entries.lookup p with _ | c
          · simp [hp, Ne.symm hp]
          · simp [hp, Ne.symm hp]
    · have hstep : mergeStep (entries, lines) e =
          (entries ++ [(e.patternKey, 1)], lines ++ [e.concrete]) := by
        unfold mergeStep
        simp [hmem]
      have hnotin : e.patternKey ∉ entries.map Prod.fst := by
        intro hin
        exact hmem ((lookup_isSome_iff entries e.patternKey).mpr hin)
      have hnd' : ((entries ++ [(e.patternKey, 1)]).map Prod.fst).Nodup := by
        rw [List.map_append]
        refine List.nodup_append.mpr ⟨hnd, by simp, ?_⟩
        intro x hx hx2
        simp only [List.map_cons, List.map_nil, List.mem_singleton] at hx2
        exact hnotin (hx2 ▸ hx)
      have ih := mergeFold_invariant rest (entries ++ [(e.patternKey, 1)])
        (lines ++ [e.concrete]) hnd'
      simp only [List.foldl_cons, List.map_cons, hstep]
      refine ⟨?_, ih.2.1, ?_, ?_⟩
      · have hr : firstOccFold (entries.map Prod.fst)
            (e.patternKey :: rest.map LogEmit.patternKey) =
            firstOccFold (entries.map Prod.fst ++ [e.patternKey])
              (rest.map LogEmit.patternKey) := by
          simp only [firstOccFold, List.foldl_cons]
          simp [hnotin]
        rw [ih.1, hr, List.map_append]
        rfl
      · have h3 := ih.2.2.1
        simp only [List.length_append, List.length_singleton] at h3
        omega
      · intro p
        have h4 := ih.2.2.2 p
        rw [h4, lookup_append_singleton e.patternKey 1 entries p, List.countP_cons]
        by_cases hp : p = e.patternKey
        · rcases hlk : entries.lookup p with _ | c
          · simp [hp]
            omega
          · rw [hp] at hlk
            exact absurd (by simp [hlk] : (entries.lookup e.patternKey).isSome = true) hmem
        · rcases hlk : entries.lookup p with _ | c
          · simp [hp, Ne.symm hp]
          · simp [hp, Ne.symm hp]


theorem flushLines_length (entries : List ((LogLevel × String) × Nat)) :
    (flushLines entries).length = entries.countP fun kv => 2 ≤ kv.2 := by
  unfold flushLines
  rw [List.length_map]
  exact (List.countP_eq_length_filter _ _).symm

/-- C7 (amended): for any multiset of emit calls within one merging
window, the number of lines written to the sink equals the number of
distinct patterns plus one summary line per pattern occurring at least
twice, where the summary says "repeated once" iff the extra count is 1
and otherwise "repeated N times" with N = total occurrences − 1 — with
pattern identity the pair (level, expanded message) for formatted
emitters and (level, fmt string) for keyed emitters: patterns of equal
text but different levels are merged separately. -/
theorem C7_logger_merging (emits : List LogEmit) :
    (sinkLines emits).length =
      (firstOccurrences (emits.map LogEmit.patternKey)).length +
        ((firstOccurrences (emits.map LogEmit.patternKey)).countP
          fun p => 2 ≤ emits.countP fun e => e.patternKey = p) ∧
    (firstOccurrences (emits.map LogEmit.patternKey)).Nodup ∧
    (∀ p, p ∈ firstOccurrences (emits.map LogEmit.patternKey) ↔
      p ∈ emits.map LogEmit.patternKey) ∧
    (∀ (extras : Nat) (pat : String), summaryLine extras pat =
      if extras = 1 then "astiencoder: pattern repeated once: " ++ pat
      else "astiencoder: pattern repeated " ++ toString extras ++ " times: " ++ pat) := by
  have hinv := mergeFold_invariant emits [] [] (by simp)
  have hkeys : (emits.foldl mergeStep ([], [])).1.map Prod.fst =
      firstOccurrences (emits.map LogEmit.patternKey) := by
    rw [hinv.1]
    simp only [firstOccurrences, List.map_nil]
  refine ⟨?_, ?_, ?_, fun extras pat => rfl⟩
  · show ((emits.foldl mergeStep ([], [])).2 ++
      flushLines (emits.foldl mergeStep ([], [])).1).length = _
    rw [List.length_append]
    have hlines : (emits.foldl mergeStep ([], [])).2.length =
        (emits.foldl mergeStep ([], [])).1.length := by
      have h3 := hinv.2.2.1
      simpa using h3
    have hflen := flushLines_length (emits.foldl mergeStep ([], [])).1
    have hlen1 : (emits.foldl mergeStep ([], [])).1.length =
        (firstOccurrences (emits.map LogEmit.patternKey)).length := by
      rw [← hkeys, List.length_map]
    have hcountP : ((emits.foldl mergeStep ([], [])).1.countP fun kv => 2 ≤ kv.2) =
        ((firstOccurrences (emits.map LogEmit.patternKey)).countP
          fun p => 2 ≤ emits.countP fun e => e.patternKey = p) := by
      rw [← hkeys, List.countP_map]
      apply List.countP_congr
      intro kv hkv
      have hl := lookup_self _ hinv.2.1 kv hkv
      have hc := hinv.2.2.2 kv.1
      rw [hl] at hc
      simp only [Option.getD_some, List.lookup_nil, Option.getD_none, Nat.zero_add] at hc
      simp only [Function.comp_apply, decide_eq_true_eq]
      rw [← hc]
    omega
  · rw [← hkeys]
    exact hinv.2.1
  · intro p
    unfold firstOccurrences
    rw [mem_firstOcc_foldl (emits.map LogEmit.patternKey) [] p]
    simp

/-- C7: counterexample to the claim as stated.  With pattern identity
taken as the expanded message alone (no level), the multiset
{Errorf "msg" ×2, Infof "msg" ×2} has one distinct pattern occurring
four times, so the claim predicts 1 + 1 = 2 sink lines; the logger
(pinned by `TestEventLogger`, whose expected sink map counts the line
"msg" twice and the summary "repeated once: msg" twice) writes 4. -/
theorem C7_counterexample :
    (sinkLines [LogEmit.fmt LogLevel.error "msg", LogEmit.fmt LogLevel.error "msg",
      LogEmit.fmt LogLevel.info "msg", LogEmit.fmt LogLevel.info "msg"]).length = 4 ∧
    (firstOccurrences ([LogEmit.fmt LogLevel.error "msg", LogEmit.fmt LogLevel.error "msg",
        LogEmit.fmt LogLevel.info "msg",
        LogEmit.fmt LogLevel.info "msg"].map claimPatternKey)).length +
      ((firstOccurrences ([LogEmit.fmt LogLevel.error "msg", LogEmit.fmt LogLevel.error "msg",
          LogEmit.fmt LogLevel.info "msg",
          LogEmit.fmt LogLevel.info "msg"].map claimPatternKey)).countP
        fun p => 2 ≤ [LogEmit.fmt LogLevel.error "msg", LogEmit.fmt LogLevel.error "msg",
          LogEmit.fmt LogLevel.info "msg",
          LogEmit.fmt LogLevel.info "msg"].countP fun e => claimPatternKey e = p) = 2 ∧
    (4 : Nat) ≠ 2 := by
  refine ⟨by decide, by decide, by decide⟩

end Astiencoder

namespace Astilibav

/-! ## C1: looper restamping lemmas -/

theorem pd_handlePkt_fst_nonneg (pd : pktDurationer) (pts : Int) :
    0 ≤ (pd.handlePkt pts).1 := by
  rcases pd with ⟨lp, ld⟩
  rcases lp with _ | l
  · simp [pktDurationer.handlePkt]
  · simp only [pktDurationer.handlePkt]
    split <;> omega

theorem pdRun_lastDuration_nonneg :
    ∀ (l : List Int) (pd : pktDurationer), 0 ≤ pd.lastDuration →
      0 ≤ (pdRun pd l).lastDuration
  | [], _, h => h
  | p :: rest, pd, _ => by
    have hp := pd_handlePkt_fst_nonneg pd p
    exact pdRun_lastDuration_nonneg rest (pd.handlePkt p).2 hp

theorem posAccum_nonneg : ∀ (lp : Option Int) (l : List Int), 0 ≤ posAccum lp l
  | _, [] => le_refl 0
  | lp, p :: rest => by
    have h := posAccum_nonneg (some p) rest
    simp only [posAccum]
    rcases lp with _ | l
    · simpa using h
    · split <;> omega

theorem posAccum_ge_span :
    ∀ (l : List Int) (a : Int), l.getLast?.getD a - a ≤ posAccum (some a) l
  | [], a => by simp [posAccum]
  | p :: rest, a => by
    have h := posAccum_ge_span rest p
    have hg : (p :: rest).getLast?.getD a = rest.getLast?.getD p := by
      rcases rest with _ | ⟨b, t⟩
      · simp
      · obtain ⟨x, hx⟩ := Option.isSome_iff_exists.mp
          (List.getLast?_isSome.mpr (by simp : (b :: t) ≠ []))
        simp [List.getLast?_cons_cons, hx]
    rw [hg]
    simp only [posAccum]
    split <;> omega

theorem posAccum_cons (pd : pktDurationer) (p : Int) (l : List Int) :
    posAccum pd.lastPts (p :: l) = (pd.handlePkt p).1 + posAccum (some p) l := by
  rcases pd with ⟨lp, ld⟩
  rcases lp with _ | a <;> simp [posAccum, pktDurationer.handlePkt]

theorem pktStep_emit (s : demuxerLooperStream) (pts dts : Int)
    (hd : 0 ≤ s.restampDelta) :
    (looperPktStep s pts dts).2 = (pts + s.restampDelta, dts + s.restampDelta) := by
  simp only [looperPktStep]
  split_ifs <;> simp_all <;> omega

theorem pktStep_restampDelta (s : demuxerLooperStream) (pts dts : Int) :
    (looperPktStep s pts dts).1.restampDelta = s.restampDelta := by
  simp only [looperPktStep]
  split_ifs <;> rfl

theorem pktStep_timeBase (s : demuxerLooperStream) (pts dts : Int) :
    (looperPktStep s pts dts).1.timeBase = s.timeBase := by
  simp only [looperPktStep]
  split_ifs <;> rfl

theorem pktStep_pd (s : demuxerLooperStream) (pts dts : Int) :
    (looperPktStep s pts dts).1.pd = (s.pd.handlePkt pts).2 := by
  simp only [looperPktStep]
  split_ifs <;> rfl

theorem pktStep_duration (s : demuxerLooperStream) (pts dts : Int) :
    (looperPktStep s pts dts).1.duration = s.duration + (s.pd.handlePkt pts).1 := by
  have hp := pd_handlePkt_fst_nonneg s.pd pts
  simp only [looperPktStep]
  split_ifs <;> simp_all <;> omega

theorem pktStep_offset (s : demuxerLooperStream) (pts dts : Int) :
    (looperPktStep s pts dts).2.1 - (looperPktStep s pts dts).2.2 = pts - dts := by
  simp only [looperPktStep]
  split_ifs <;> dsimp <;> omega

theorem boundary_spec (maxD : Int) (s : demuxerLooperStream) :
    (loopingAlign maxD (loopingFlush s)).duration = 0 ∧
    (loopingAlign maxD (loopingFlush s)).pd = pktDurationer.init ∧
    s.restampDelta + s.duration + s.pd.lastDuration ≤
      (loopingAlign maxD (loopingFlush s)).restampDelta := by
  simp only [loopingAlign, loopingFlush, pktDurationer.flush]
  split_ifs with h1 h2 <;> refine ⟨rfl, rfl, ?_⟩ <;> dsimp <;> omega

theorem pktsFold_spec :
    ∀ (fs : List Pkt) (s : demuxerLooperStream),
      (pktsFold s fs).restampDelta = s.restampDelta ∧
      (pktsFold s fs).timeBase = s.timeBase ∧
      (pktsFold s fs).pd = pdRun s.pd (fs.map Pkt.pts) ∧
      (pktsFold s fs).duration = s.duration + posAccum s.pd.lastPts (fs.map Pkt.pts)
  | [], s => by simp [pktsFold, pdRun, posAccum]
  | p :: rest, s => by
    have hrec := pktsFold_spec rest ((looperPktStep s p.pts p.dts).1)
    have hfold : pktsFold s (p :: rest) = pktsFold ((looperPktStep s p.pts p.dts).1) rest := by
      simp [pktsFold]
    rw [hfold]
    refine ⟨?_, ?_, ?_, ?_⟩
    · rw [hrec.1, pktStep_restampDelta]
    · rw [hrec.2.1, pktStep_timeBase]
    · rw [hrec.2.2.1, pktStep_pd, List.map_cons]
      rfl
    · rw [hrec.2.2.2, pktStep_duration, pktStep_pd, List.map_cons, posAccum_cons]
      have : ((s.pd.handlePkt p.pts).2).lastPts = some p.pts := rfl
      rw [this]
      omega

theorem handlePkt_lookup_update (p : Pkt) :
    ∀ (ss : LooperStreams) (i : Nat),
      ((ss.map fun e =>
          if e.1 = p.streamIndex then (e.1, (looperPktStep e.2 p.pts p.dts).1) else e).lookup i)
        = if i = p.streamIndex
            then (ss.lookup i).map (fun v => (looperPktStep v p.pts p.dts).1)
            else ss.lookup i
  | [], i => by simp [List.lookup]
  | (k, v) :: rest, i => by
    have hrec := handlePkt_lookup_update p rest i
    by_cases hk : k = p.streamIndex <;> by_cases hi : i = k
    · subst hk; subst hi
      simp [List.lookup_cons]
    · subst hk
      have hbeq : (i == p.streamIndex) = false := by simpa using hi
      simp [List.lookup_cons, hbeq, hrec, hi]
    · subst hi
      simp [List.lookup_cons, hk]
    · have hbeq : (i == k) = false := by simpa using hi
      simp [List.lookup_cons, hbeq, hk, hrec]

theorem looping_lookup (ss : LooperStreams) (i : Nat) (s : demuxerLooperStream)
    (h : ss.lookup i = some s) :
    ∃ maxD, (demuxerLooper.looping ss).lookup i =
      some (loopingAlign maxD (loopingFlush s)) := by
  refine ⟨((ss.map fun e => (e.1, loopingFlush e.2)).foldl
    (fun m e => max m e.2.durationD) 0), ?_⟩
  simp only [demuxerLooper.looping]
  rw [lookup_map_snd (loopingAlign ((ss.map fun e => (e.1, loopingFlush e.2)).foldl
        (fun m e => max m e.2.durationD) 0)),
      lookup_map_snd loopingFlush, h]
  rfl

theorem runDemuxer_append :
    ∀ (a b : List DemuxEvent) (ss : LooperStreams),
      runDemuxer ss (a ++ b) =
        ((runDemuxer (runDemuxer ss a).1 b).1,
         (runDemuxer ss a).2 ++ (runDemuxer (runDemuxer ss a).1 b).2)
  | [], b, ss => by simp [runDemuxer]
  | e :: rest, b, ss => by
    simp only [List.cons_append, runDemuxer, List.append_eq]
    rw [runDemuxer_append rest b]
    simp [List.append_assoc]

theorem runPkts_effect (SI : Nat) :
    ∀ (file : List Pkt) (ss : LooperStreams) (s : demuxerLooperStream),
      ss.lookup SI = some s → 0 ≤ s.restampDelta →
      (runDemuxer ss (file.map DemuxEvent.pkt)).1.lookup SI =
          some (pktsFold s (file.filter (fun q => q.streamIndex = SI))) ∧
      (runDemuxer ss (file.map DemuxEvent.pkt)).2.filter (fun em => em.streamIndex = SI) =
          (file.filter (fun q => q.streamIndex = SI)).map
            (fun q => ⟨SI, q.pts + s.restampDelta, q.dts + s.restampDelta⟩)
  | [], ss, s, h, _ => by
    simp [runDemuxer, pktsFold, h]
  | p :: rest, ss, s, h, hD => by
    by_cases hp : p.streamIndex = SI
    · have hl : ss.lookup p.streamIndex = some s := by rw [hp]; exact h
      have hemit := pktStep_emit s p.pts p.dts hD
      have hD' : 0 ≤ (looperPktStep s p.pts p.dts).1.restampDelta := by
        rw [pktStep_restampDelta]; exact hD
      have hlookup' :
          ((ss.map fun e =>
            if e.1 = p.streamIndex then (e.1, (looperPktStep e.2 p.pts p.dts).1) else e).lookup SI)
            = some ((looperPktStep s p.pts p.dts).1) := by
        rw [handlePkt_lookup_update, if_pos hp.symm, h, Option.map_some']
      have hrec := runPkts_effect SI rest _ ((looperPktStep s p.pts p.dts).1) hlookup' hD'
      have hrd := pktStep_restampDelta s p.pts p.dts
      rw [hrd] at hrec
      simp only [List.map_cons, runDemuxer, demuxerStep, demuxerLooper.handlePkt, hl]
      refine ⟨?_, ?_⟩
      · have hfold : pktsFold s (p :: rest.filter (fun q => q.streamIndex = SI)) =
            pktsFold ((looperPktStep s p.pts p.dts).1) (rest.filter (fun q => q.streamIndex = SI)) := by
          simp [pktsFold]
        rw [List.filter_cons_of_pos (by simp [hp]), hfold]
        exact hrec.1
      · rw [List.filter_cons_of_pos (by simp [hp]), List.map_cons]
        simp only [List.singleton_append]
        rw [List.filter_cons_of_pos (by simp [hp]), hrec.2]
        congr 1
        simp [hemit, hp]
    · rcases hl : ss.lookup p.streamIndex with _ | v
      · simp only [List.map_cons, runDemuxer, demuxerStep, demuxerLooper.handlePkt, hl]
        have hrec := runPkts_effect SI rest ss s h hD
        rw [List.filter_cons_of_neg (by simp [hp])]
        simpa using hrec
      · simp only [List.map_cons, runDemuxer, demuxerStep, demuxerLooper.handlePkt, hl]
        have hlookup' :
            ((ss.map fun e =>
              if e.1 = p.streamIndex then (e.1, (looperPktStep e.2 p.pts p.dts).1) else e).lookup SI)
              = some s := by
          rw [handlePkt_lookup_update, if_neg (fun hq => hp hq.symm), h]
        have hrec := runPkts_effect SI rest _ s hlookup' hD
        rw [List.filter_cons_of_neg (by simp [hp])]
        refine ⟨hrec.1, ?_⟩
        simp only [List.singleton_append]
        rw [List.filter_cons_of_neg (by simp [hp]), hrec.2]

theorem getLast?_cons_getD (a d : Int) (l : List Int) :
    l.getLast?.getD a = ((a :: l).getLast?).getD d := by
  rcases l with _ | ⟨b, t⟩
  · simp
  · obtain ⟨x, hx⟩ := Option.isSome_iff_exists.mp
      (List.getLast?_isSome.mpr (by simp : (b :: t) ≠ []))
    simp [List.getLast?_cons_cons, hx]

theorem runDemuxer_pkts_boundary (ss : LooperStreams) (file : List Pkt) :
    runDemuxer ss (file.map DemuxEvent.pkt ++ [DemuxEvent.loopBoundary]) =
      (demuxerLooper.looping (runDemuxer ss (file.map DemuxEvent.pkt)).1,
       (runDemuxer ss (file.map DemuxEvent.pkt)).2) := by
  rw [runDemuxer_append]
  simp [runDemuxer, demuxerStep]

theorem loopedRun_chain (SI : Nat) (file : List Pkt)
    (hdp : ∀ q ∈ file.filter (fun q => q.streamIndex = SI), q.dts = q.pts)
    (hmono : List.Chain' (· ≤ ·) ((file.filter (fun q => q.streamIndex = SI)).map Pkt.pts)) :
    ∀ (k : Nat) (ss : LooperStreams) (s : demuxerLooperStream),
      ss.lookup SI = some s → 0 ≤ s.restampDelta → s.duration = 0 →
      s.pd = pktDurationer.init →
      List.Chain' (· ≤ ·)
        (((runDemuxer ss (loopedEvents file k)).2.filter
            (fun em => em.streamIndex = SI)).map Emitted.dts) ∧
      ∀ y ∈ ((((runDemuxer ss (loopedEvents file k)).2.filter
            (fun em => em.streamIndex = SI)).map Emitted.dts).head?),
        ∃ q ∈ ((file.filter (fun q => q.streamIndex = SI)).head?),
          y = q.dts + s.restampDelta
  | 0, ss, s, h, hD, hdur, hpd => by
    simp [loopedEvents, runDemuxer]
  | (k+1), ss, s, h, hD, hdur, hpd => by
    have hev : loopedEvents file (k+1) =
        (file.map DemuxEvent.pkt ++ [DemuxEvent.loopBoundary]) ++ loopedEvents file k := by
      simp [loopedEvents, List.replicate_succ]
    have hP := runPkts_effect SI file ss s h hD
    have hPF := pktsFold_spec (file.filter (fun q => q.streamIndex = SI)) s
    obtain ⟨maxD, hlook2⟩ := looping_lookup (runDemuxer ss (file.map DemuxEvent.pkt)).1 SI
      (pktsFold s (file.filter (fun q => q.streamIndex = SI))) hP.1
    have hB := boundary_spec maxD (pktsFold s (file.filter (fun q => q.streamIndex = SI)))
    have hdur1 : (pktsFold s (file.filter (fun q => q.streamIndex = SI))).duration =
        posAccum none ((file.filter (fun q => q.streamIndex = SI)).map Pkt.pts) := by
      rw [hPF.2.2.2, hdur, hpd]
      simp [pktDurationer.init]
    have hld1 : 0 ≤ (pktsFold s (file.filter (fun q => q.streamIndex = SI))).pd.lastDuration := by
      rw [hPF.2.2.1, hpd]
      exact pdRun_lastDuration_nonneg _ _ (le_refl 0)
    have hD2 : s.restampDelta + posAccum none ((file.filter (fun q => q.streamIndex = SI)).map Pkt.pts) ≤
        (loopingAlign maxD (loopingFlush
          (pktsFold s (file.filter (fun q => q.streamIndex = SI))))).restampDelta := by
      have hb := hB.2.2
      rw [hPF.1, hdur1] at hb
      omega
    have hD2' : 0 ≤ (loopingAlign maxD (loopingFlush
        (pktsFold s (file.filter (fun q => q.streamIndex = SI))))).restampDelta := by
      have hpa := posAccum_nonneg none ((file.filter (fun q => q.streamIndex = SI)).map Pkt.pts)
      omega
    have hrec := loopedRun_chain SI file hdp hmono k
      (demuxerLooper.looping (runDemuxer ss (file.map DemuxEvent.pkt)).1)
      (loopingAlign maxD (loopingFlush (pktsFold s (file.filter (fun q => q.streamIndex = SI)))))
      hlook2 hD2' hB.1 hB.2.1
    rw [hev, runDemuxer_append, runDemuxer_pkts_boundary]
    dsimp only
    rw [List.filter_append, List.map_append, hP.2]
    rcases hfsc : file.filter (fun q => q.streamIndex = SI) with _ | ⟨qh, ftl⟩
    · rw [hfsc]
      simp only [List.map_nil, List.nil_append]
      constructor
      · exact hrec.1
      · intro y hy
        obtain ⟨q, hq, _⟩ := hrec.2 y hy
        rw [hfsc] at hq
        simp at hq
    · constructor
      · rw [List.chain'_append]
        refine ⟨?_, hrec.1, ?_⟩
        · rw [List.map_map]
          have hcomp : ((file.filter (fun q => q.streamIndex = SI)).map
                (Emitted.dts ∘ fun q =>
                  (⟨SI, q.pts + s.restampDelta, q.dts + s.restampDelta⟩ : Emitted))) =
              ((file.filter (fun q => q.streamIndex = SI)).map Pkt.pts).map
                (fun x => x + s.restampDelta) := by
            rw [List.map_map]
            apply List.map_congr_left
            intro q hq
            have hqd := hdp q hq
            simp [hqd]
          rw [hcomp, List.chain'_map]
          exact hmono.imp (fun a b hab => by omega)
        · intro x hx y hy
          rw [List.map_map, List.getLast?_map] at hx
          obtain ⟨ql, hql, hxval⟩ : ∃ ql,
              (file.filter (fun q => q.streamIndex = SI)).getLast? = some ql ∧
              x = ql.dts + s.restampDelta := by
            rcases hgl : (file.filter (fun q => q.streamIndex = SI)).getLast? with _ | ql
            · rw [hgl] at hx
              simp at hx
            · rw [hgl] at hx
              simp at hx
              exact ⟨ql, hgl, hx.symm⟩
          obtain ⟨qh', hqh', hyval⟩ := hrec.2 y hy
          rw [hfsc] at hqh'
          simp at hqh'
          have hqlmem : ql ∈ file.filter (fun q => q.streamIndex = SI) :=
            List.mem_of_mem_getLast? (by simp [hql])
          have hqhmem : qh ∈ file.filter (fun q => q.streamIndex = SI) := by
            rw [hfsc]
            exact List.mem_cons_self qh ftl
          have hqld := hdp ql hqlmem
          have hqhd := hdp qh hqhmem
          have hspan : (ftl.map Pkt.pts).getLast?.getD qh.pts - qh.pts ≤
              posAccum (some qh.pts) (ftl.map Pkt.pts) := posAccum_ge_span _ _
          have hlastpts : (ftl.map Pkt.pts).getLast?.getD qh.pts = ql.pts := by
            rw [getLast?_cons_getD qh.pts 0]
            have : ((file.filter (fun q => q.streamIndex = SI)).map Pkt.pts).getLast? =
                some ql.pts := by
              rw [List.getLast?_map, hql, Option.map_some']
            rw [hfsc, List.map_cons] at this
            rw [this]
            rfl
          have hpa : posAccum none ((file.filter (fun q => q.streamIndex = SI)).map Pkt.pts) =
              posAccum (some qh.pts) (ftl.map Pkt.pts) := by
            rw [hfsc, List.map_cons]
            simp [posAccum]
          rw [hlastpts] at hspan
          rw [hpa] at hD2
          subst hqh'
          rw [hxval, hyval, hqld, hqhd]
          omega
      · intro y hy
        rw [hfsc] at hy
        simp only [List.map_cons, List.cons_append, List.head?_cons] at hy
        simp only [Option.mem_def, Option.some.injEq] at hy
        refine ⟨qh, ?_, ?_⟩
        · rw [hfsc]
          simp
        · rw [← hy]

/-- **C1** (amended).  For a file replayed `k` times with looping enabled,
restricted to a fresh stream `SI` whose packets carry `dts = pts` and
non-decreasing `pts`, the looper emits non-decreasing DTS values on that
stream.  Unconditionally, every emitted packet preserves the original
`pts - dts` offset, and `looping()` never decreases `restampDelta` for a
stream with non-negative elapsed duration and durationer duration. -/
theorem C1_looper_restamp (SI : Nat) (file : List Pkt) (k : Nat)
    (ss0 : LooperStreams) (tb : AVRational)
    (h0 : ss0.lookup SI = some (newDemuxerLooperStream tb))
    (hdp : ∀ q ∈ file.filter (fun q => q.streamIndex = SI), q.dts = q.pts)
    (hmono : List.Chain' (· ≤ ·) ((file.filter (fun q => q.streamIndex = SI)).map Pkt.pts)) :
    List.Chain' (· ≤ ·)
      (((runDemuxer ss0 (loopedEvents file k)).2.filter
          (fun em => em.streamIndex = SI)).map Emitted.dts) ∧
    (∀ (s : demuxerLooperStream) (pts dts : Int),
        (looperPktStep s pts dts).2.1 - (looperPktStep s pts dts).2.2 = pts - dts) ∧
    (∀ (maxD : Int) (s : demuxerLooperStream), 0 ≤ s.duration → 0 ≤ s.pd.lastDuration →
        s.restampDelta ≤ (loopingAlign maxD (loopingFlush s)).restampDelta) := by
  refine ⟨?_, pktStep_offset, ?_⟩
  · exact (loopedRun_chain SI file hdp hmono k ss0 (newDemuxerLooperStream tb) h0
      (le_refl 0) rfl rfl).1
  · intro maxD s h1 h2
    have hB := boundary_spec maxD s
    omega

/-- **C1** counterexample: one stream with time base 1/10 fed the packets
`(pts 0, dts 0), (pts 1, dts 5)` over two loop iterations emits the DTS
sequence `[0, 5, 2, 7]`, which is not non-decreasing: the second
iteration re-anchors DTS below the first iteration's last DTS, so the
monotonicity part of the claim fails without extra hypotheses on the
file. -/
theorem C1_counterexample :
    ¬ List.Chain' (· ≤ ·)
      (((runDemuxer [(0, newDemuxerLooperStream ⟨1, 10⟩)]
          (loopedEvents [⟨0, 0, 0⟩, ⟨0, 1, 5⟩] 2)).2.filter
            (fun em => em.streamIndex = 0)).map Emitted.dts) := by
  intro hc
  have he : (((runDemuxer [(0, newDemuxerLooperStream ⟨1, 10⟩)]
      (loopedEvents [⟨0, 0, 0⟩, ⟨0, 1, 5⟩] 2)).2.filter
        (fun em => em.streamIndex = 0)).map Emitted.dts) = [0, 5, 2, 7] := by decide
  rw [he] at hc
  have h12 := (List.chain'_cons.mp (List.chain'_cons.mp hc).2).1
  omega

/-- Witness for `C1_looper_restamp` at a concrete fresh stream and a
two-packet file with `dts = pts` and non-decreasing `pts`, replayed
twice. -/
theorem C1_looper_restamp_witness :
    (([(0, newDemuxerLooperStream ⟨1, 10⟩)] : LooperStreams).lookup 0 =
        some (newDemuxerLooperStream ⟨1, 10⟩)) ∧
    List.Chain' (· ≤ ·)
      (((runDemuxer [(0, newDemuxerLooperStream ⟨1, 10⟩)]
          (loopedEvents [⟨0, 0, 0⟩, ⟨0, 2, 2⟩] 2)).2.filter
            (fun em => em.streamIndex = 0)).map Emitted.dts) :=
  ⟨by decide,
   (C1_looper_restamp 0 [⟨0, 0, 0⟩, ⟨0, 2, 2⟩] 2
      [(0, newDemuxerLooperStream ⟨1, 10⟩)] ⟨1, 10⟩ (by decide) (by decide)
      (by
        have hl : (([⟨0, 0, 0⟩, ⟨0, 2, 2⟩] : List Pkt).filter
            (fun q => q.streamIndex = 0)).map Pkt.pts = [0, 2] := by decide
        rw [hl]
        refine List.chain'_cons.mpr ⟨by omega, ?_⟩
        simp)).1⟩

end Astilibav
